import Mathlib

/-!
Formal model of the myday-backend recurrence engine and series-mutation
protocol (`src/app/utils/recurrenceUtils.js`, `src/app/controllers/taskController.js`).

Timestamps are epoch milliseconds (`Int`).  The JavaScript code delegates
timezone arithmetic to the luxon library and daily/weekly/monthly expansion to
the rrule library; neither library is part of this repository, so those parts
are modelled from the specification's description of the algorithm (§4.1):

* a timezone is interpreted as a wall-clock/epoch correspondence; we model the
  zone of a rule by its fixed offset `off` (milliseconds to add to an epoch
  instant to obtain its local wall-clock reading, as for `UTC` or any
  fixed-offset IANA zone).  Daylight-saving transitions are outside this model.
* rrule expansion is modelled per RFC 5545 semantics as described in the spec:
  refinements restrict the candidate set, and a candidate whose calendar date
  does not exist is silently dropped (never substituted); `count` counts
  emitted occurrences; `until` is an inclusive bound.  rrule iterates over a
  finite horizon; the model makes that horizon an explicit fuel argument.

Calendar arithmetic (proleptic Gregorian) is spelled out concretely so that
every definition is executable.
-/

/-- Gregorian leap-year test. -/
def isLeap (y : Int) : Bool :=
  decide ((y % 4 = 0 ∧ ¬ y % 100 = 0) ∨ y % 400 = 0)

/-- Number of days in month `m` (1–12) of year `y`.  Out-of-range months get a
harmless default. -/
def daysInMonth (y : Int) (m : Nat) : Nat :=
  match m with
  | 2 => if isLeap y then 29 else 28
  | 4 => 30 | 6 => 30 | 9 => 30 | 11 => 30
  | _ => 31

def daysInYear (y : Int) : Nat := if isLeap y then 366 else 365

/-- Days in months `1 .. m-1` of year `y` (days of year `y` strictly before
month `m`). -/
def daysBeforeMonth (y : Int) : Nat → Nat
  | 0 => 0
  | 1 => 0
  | Nat.succ m => daysBeforeMonth y m + daysInMonth y m

/-- Number of leap years in `[0, y)` (for `y ≥ 0`). -/
def leapsBefore (y : Int) : Int :=
  (y + 3) / 4 - (y + 99) / 100 + (y + 399) / 400

/-- Days in years `[0, y)` of the proleptic Gregorian calendar. -/
def daysBeforeYear (y : Int) : Int := 365 * y + leapsBefore y

/-- `daysBeforeYear 1970`, the day index of the Unix epoch counted from
0000-01-01. -/
def epochDayBase : Int := 719528

/-- Epoch day number (1970-01-01 = day 0) of the civil date `y-m-d`. -/
def dayNumber (y : Int) (m d : Nat) : Int :=
  daysBeforeYear y + (daysBeforeMonth y m : Int) + (d : Int) - 1 - epochDayBase

structure Civil where
  year : Int
  month : Nat
  day : Nat
deriving Repr, DecidableEq

theorem daysInMonth_pos (y : Int) (m : Nat) : 0 < daysInMonth y m := by
  unfold daysInMonth
  split <;> first | split <;> decide | decide

theorem daysInYear_pos (y : Int) : 0 < daysInYear y := by
  unfold daysInYear; split <;> decide

/-- Scan the months of year `y` starting at month `m` for the day with
`r` days of the year remaining before it (structural fuel recursion; the fuel
`12` used below always suffices for `r < daysInYear y`). -/
def monthScan (y : Int) : Nat → Nat → Nat → Civil
  | 0, m, r => ⟨y, m, r + 1⟩
  | fuel + 1, m, r =>
    if r < daysInMonth y m then ⟨y, m, r + 1⟩
    else monthScan y fuel (m + 1) (r - daysInMonth y m)

/-- Civil date of the day `k` days after the start of year `y`, scanning years
upward (structural fuel recursion). -/
def civPos : Nat → Int → Nat → Civil
  | 0, y, k => monthScan y 12 1 k
  | fuel + 1, y, k =>
    if k < daysInYear y then monthScan y 12 1 k
    else civPos fuel (y + 1) (k - daysInYear y)

/-- Civil date of the day `k` days before the end of year `y`, scanning years
downward (structural fuel recursion). -/
def civNeg : Nat → Int → Nat → Civil
  | 0, y, k => monthScan y 12 1 (daysInYear y - 1 - k)
  | fuel + 1, y, k =>
    if k < daysInYear y then monthScan y 12 1 (daysInYear y - 1 - k)
    else civNeg fuel (y - 1) (k - daysInYear y)

/-- Civil date of epoch day number `n`. -/
def civilFromDays (n : Int) : Civil :=
  if 0 ≤ n then civPos (n.toNat / 365 + 1) 1970 n.toNat
  else civNeg ((-n - 1).toNat / 365 + 1) 1969 (-n - 1).toNat

/-- Day of week of epoch day `n`, 0 = Sunday … 6 = Saturday
(1970-01-01 was a Thursday). -/
def weekdayOfDay (n : Int) : Int := (n + 4) % 7

theorem daysBeforeYear_succ (y : Int) :
    daysBeforeYear (y + 1) = daysBeforeYear y + (daysInYear y : Int) := by
  unfold daysBeforeYear leapsBefore daysInYear isLeap
  by_cases h4 : y % 4 = 0 <;> by_cases h100 : y % 100 = 0 <;> by_cases h400 : y % 400 = 0 <;>
    simp [h4, h100, h400] <;> omega

theorem daysBeforeYear_mono {y y' : Int} (h : y ≤ y') :
    daysBeforeYear y ≤ daysBeforeYear y' := by
  unfold daysBeforeYear leapsBefore
  omega

theorem daysBeforeMonth_13 (y : Int) : daysBeforeMonth y 13 = daysInYear y := by
  cases h : isLeap y <;>
    simp [daysBeforeMonth, daysInMonth, daysInYear, h]

theorem daysBeforeMonth_succ (y : Int) (m : Nat) (hm : 1 ≤ m) :
    daysBeforeMonth y (m + 1) = daysBeforeMonth y m + daysInMonth y m := by
  match m, hm with
  | Nat.succ m, _ => rfl

theorem daysBeforeMonth_le_succ (y : Int) (m : Nat) :
    daysBeforeMonth y m ≤ daysBeforeMonth y (m + 1) := by
  match m with
  | 0 => simp [daysBeforeMonth]
  | Nat.succ k =>
    show daysBeforeMonth y (k + 1) ≤ daysBeforeMonth y (k + 1) + daysInMonth y (k + 1)
    exact Nat.le_add_right _ _

theorem daysBeforeMonth_mono (y : Int) {m m' : Nat} (h : m ≤ m') :
    daysBeforeMonth y m ≤ daysBeforeMonth y m' := by
  induction h with
  | refl => exact Nat.le_refl _
  | step h ih => exact Nat.le_trans ih (daysBeforeMonth_le_succ y _)

/-- A valid civil date's in-year day index is below the year length. -/
theorem inYear_lt (y : Int) {m d : Nat} (hm1 : 1 ≤ m) (hm : m ≤ 12)
    (hd1 : 1 ≤ d) (hd : d ≤ daysInMonth y m) :
    daysBeforeMonth y m + (d - 1) < daysInYear y := by
  have h1 : daysBeforeMonth y m + daysInMonth y m = daysBeforeMonth y (m + 1) :=
    (daysBeforeMonth_succ y m hm1).symm
  have h2 : daysBeforeMonth y (m + 1) ≤ daysBeforeMonth y 13 :=
    daysBeforeMonth_mono y (by omega)
  rw [daysBeforeMonth_13] at h2
  omega

/-- Total days of months `j .. j+c-1` of year `y`. -/
def sumDims (y : Int) : Nat → Nat → Nat
  | _, 0 => 0
  | j, c + 1 => daysInMonth y j + sumDims y (j + 1) c

theorem daysBeforeMonth_sumDims (y : Int) :
    ∀ (c j : Nat), 1 ≤ j →
      daysBeforeMonth y (j + c) = daysBeforeMonth y j + sumDims y j c := by
  intro c
  induction c with
  | zero => intro j _; simp [sumDims]
  | succ c ih =>
    intro j hj
    have h1 : j + (c + 1) = (j + 1) + c := by omega
    rw [h1, ih (j + 1) (by omega), daysBeforeMonth_succ y j hj, sumDims]
    omega

theorem monthScan_peel (y : Int) (fuel j r : Nat) :
    monthScan y (fuel + 1) j (daysInMonth y j + r) = monthScan y fuel (j + 1) r := by
  rw [monthScan]
  have h : ¬ (daysInMonth y j + r < daysInMonth y j) := by omega
  simp [h]

theorem monthScan_spec_aux (y : Int) :
    ∀ (c j d : Nat), 1 ≤ d → d ≤ daysInMonth y (j + c) →
      ∀ fuel, c ≤ fuel →
      monthScan y fuel j (sumDims y j c + (d - 1)) = ⟨y, j + c, d⟩ := by
  intro c
  induction c with
  | zero =>
    intro j d hd1 hd2 fuel _
    simp only [Nat.add_zero] at hd2 ⊢
    rw [sumDims]
    have h3 : 0 + (d - 1) + 1 = d := by omega
    match fuel with
    | 0 => rw [monthScan, h3]
    | fuel + 1 =>
      rw [monthScan, if_pos (by omega : 0 + (d - 1) < daysInMonth y j), h3]
  | succ c ih =>
    intro j d hd1 hd2 fuel hfuel
    match fuel, hfuel with
    | 0, hfuel => exact absurd hfuel (by omega)
    | fuel + 1, hfuel =>
      have h1 : sumDims y j (c + 1) + (d - 1)
          = daysInMonth y j + (sumDims y (j + 1) c + (d - 1)) := by
        rw [sumDims]; omega
      rw [h1, monthScan_peel]
      have h2 : j + (c + 1) = (j + 1) + c := by omega
      rw [h2] at hd2 ⊢
      exact ih (j + 1) d hd1 hd2 fuel (by omega)

theorem monthScan_spec (y : Int) (m d : Nat) (hm1 : 1 ≤ m) (hm : m ≤ 12)
    (hd1 : 1 ≤ d) (hd : d ≤ daysInMonth y m) :
    monthScan y 12 1 (daysBeforeMonth y m + (d - 1)) = ⟨y, m, d⟩ := by
  have h1 : m = 1 + (m - 1) := by omega
  have h2 : daysBeforeMonth y m = sumDims y 1 (m - 1) := by
    conv_lhs => rw [h1]
    rw [daysBeforeMonth_sumDims y (m - 1) 1 (by omega)]
    simp [daysBeforeMonth]
  rw [h2]
  have h3 := monthScan_spec_aux y (m - 1) 1 d hd1 (by rw [← h1]; exact hd) 12 (by omega)
  rw [← h1] at h3
  exact h3

theorem civPos_spec (y : Int) (m d : Nat) (hm1 : 1 ≤ m) (hm : m ≤ 12)
    (hd1 : 1 ≤ d) (hd : d ≤ daysInMonth y m) :
    ∀ (c : Nat), ∀ (fuel : Nat), c ≤ fuel →
      civPos fuel (y - c) ((daysBeforeYear y - daysBeforeYear (y - c)).toNat
        + (daysBeforeMonth y m + (d - 1))) = ⟨y, m, d⟩ := by
  intro c
  induction c with
  | zero =>
    intro fuel _
    simp only [Nat.cast_zero, sub_zero, sub_self, Int.toNat_zero, Nat.zero_add]
    match fuel with
    | 0 => exact monthScan_spec y m d hm1 hm hd1 hd
    | fuel + 1 =>
      rw [civPos, if_pos (inYear_lt y hm1 hm hd1 hd)]
      exact monthScan_spec y m d hm1 hm hd1 hd
  | succ c ih =>
    intro fuel hfuel
    match fuel, hfuel with
    | 0, hfuel => exact absurd hfuel (by omega)
    | fuel + 1, hfuel =>
      have hy0 : y - (c + 1 : Nat) + 1 = y - c := by push_cast; ring
      have hmono : daysBeforeYear (y - c) ≤ daysBeforeYear y :=
        daysBeforeYear_mono (by omega)
      have hsucc : daysBeforeYear (y - c)
          = daysBeforeYear (y - (c + 1 : Nat)) + (daysInYear (y - (c + 1 : Nat)) : Int) := by
        rw [← hy0, daysBeforeYear_succ]
      rw [civPos]
      have hcond : ¬ ((daysBeforeYear y - daysBeforeYear (y - (c + 1 : Nat))).toNat
          + (daysBeforeMonth y m + (d - 1)) < daysInYear (y - (c + 1 : Nat))) := by
        omega
      rw [if_neg hcond]
      have harg : (daysBeforeYear y - daysBeforeYear (y - (c + 1 : Nat))).toNat
          + (daysBeforeMonth y m + (d - 1)) - daysInYear (y - (c + 1 : Nat))
          = (daysBeforeYear y - daysBeforeYear (y - c)).toNat
            + (daysBeforeMonth y m + (d - 1)) := by
        omega
      rw [harg, hy0]
      exact ih fuel (by omega)

/-- Year-count lower bound on day differences. -/
theorem daysBeforeYear_ge {y y' : Int} (h : y' ≤ y) :
    daysBeforeYear y' + 365 * (y - y') ≤ daysBeforeYear y := by
  unfold daysBeforeYear leapsBefore
  omega

/-- Converting a valid post-1970 civil date to its epoch day number and back is
the identity. -/
theorem civilFromDays_dayNumber (y : Int) (m d : Nat) (hy : 1970 ≤ y)
    (hm1 : 1 ≤ m) (hm : m ≤ 12) (hd1 : 1 ≤ d) (hd : d ≤ daysInMonth y m) :
    civilFromDays (dayNumber y m d) = ⟨y, m, d⟩ := by
  have hmono : daysBeforeYear 1970 ≤ daysBeforeYear y := daysBeforeYear_mono hy
  have hbase : daysBeforeYear 1970 = epochDayBase := by decide
  have hnn : 0 ≤ dayNumber y m d := by
    unfold dayNumber; omega
  unfold civilFromDays
  rw [if_pos hnn]
  have hge := daysBeforeYear_ge hy
  have hbase0 : daysBeforeYear 1970 = epochDayBase := by decide
  have hfuel : (y - 1970).toNat ≤ (dayNumber y m d).toNat / 365 + 1 := by
    unfold dayNumber at *
    omega
  have hspec := civPos_spec y m d hm1 hm hd1 hd ((y - 1970).toNat)
    ((dayNumber y m d).toNat / 365 + 1) hfuel
  have h1 : (y - ((y - 1970).toNat : Nat) : Int) = 1970 := by omega
  rw [h1] at hspec
  have harg : (dayNumber y m d).toNat
      = (daysBeforeYear y - daysBeforeYear 1970).toNat
        + (daysBeforeMonth y m + (d - 1)) := by
    unfold dayNumber
    omega
  nth_rewrite 2 [harg]
  exact hspec

/-- Strict monotonicity of `dayNumber` in lexicographic order of valid civil
dates. -/
theorem dayNumber_lt_dayNumber {y y' : Int} {m d m' d' : Nat}
    (hm1 : 1 ≤ m) (hm : m ≤ 12) (hd1 : 1 ≤ d) (hd : d ≤ daysInMonth y m)
    (hm1' : 1 ≤ m') (hm' : m' ≤ 12) (hd1' : 1 ≤ d')
    (hd' : d' ≤ daysInMonth y' m')
    (hlex : y < y' ∨ (y = y' ∧ m < m') ∨ (y = y' ∧ m = m' ∧ d < d')) :
    dayNumber y m d < dayNumber y' m' d' := by
  rcases hlex with hyy | ⟨rfl, hmm⟩ | ⟨rfl, rfl, hdd⟩
  · have h1 : daysBeforeMonth y m + (d - 1) < daysInYear y :=
      inYear_lt y hm1 hm hd1 hd
    have h2 : daysBeforeYear (y + 1) = daysBeforeYear y + (daysInYear y : Int) :=
      daysBeforeYear_succ y
    have h3 : daysBeforeYear (y + 1) ≤ daysBeforeYear y' :=
      daysBeforeYear_mono (by omega)
    unfold dayNumber
    omega
  · have h1 : daysBeforeMonth y (m + 1) ≤ daysBeforeMonth y m' :=
      daysBeforeMonth_mono y (by omega)
    rw [daysBeforeMonth_succ y m hm1] at h1
    unfold dayNumber
    omega
  · unfold dayNumber
    omega

/-! ### Recurrence rules (src/app/models/recursion.js) -/

inductive Frequency
  | daily | weekly | monthly | yearly
deriving Repr, DecidableEq

structure WeekAndDayOfMonth where
  dayOfWeek : Nat
  weekOfMonth : Nat
deriving Repr, DecidableEq

/-- A recurrence rule.  Fields are `Option`s: `none` plays the role of an
absent field; JavaScript truthiness additionally treats `0` and `""` as
absent, captured by the `…Truthy` helpers below. -/
structure Recurrence where
  frequency : Frequency
  interval : Option Nat := none
  endDate : Option Int := none
  count : Option Nat := none
  daysOfWeek : Option (List Nat) := none
  dayOfMonth : Option Nat := none
  weekAndDayOfMonth : Option WeekAndDayOfMonth := none
  timezone : Option String := none
deriving Repr, DecidableEq

def countTruthy (r : Recurrence) : Bool :=
  match r.count with
  | some c => c != 0
  | none => false

def endDateTruthy (r : Recurrence) : Bool :=
  match r.endDate with
  | some e => e != 0
  | none => false

def tzTruthy (r : Recurrence) : Bool :=
  match r.timezone with
  | some s => s != ""
  | none => false

def dayOfMonthTruthy (r : Recurrence) : Bool :=
  match r.dayOfMonth with
  | some d => d != 0
  | none => false

/-- `recurrence.interval || 1`. -/
def intervalOr1 (r : Recurrence) : Nat :=
  match r.interval with
  | some i => if i = 0 then 1 else i
  | none => 1

theorem intervalOr1_pos (r : Recurrence) : 0 < intervalOr1 r := by
  unfold intervalOr1
  rcases r.interval with _ | i
  · decide
  · dsimp only
    split <;> omega

/-! ### Epoch-millisecond helpers (the luxon arithmetic, fixed-offset zones) -/

def msPerDay : Int := 86400000

/-- Truncate an epoch-millisecond value to whole seconds
(`DateTime.utc(y, mo, d, h, mi, s)` drops the millisecond component). -/
def floorSec (x : Int) : Int := 1000 * (x / 1000)

/-- Hour-of-day of the UTC reading of an epoch-millisecond value. -/
def hourOf (x : Int) : Int := x % 86400000 / 3600000

def minuteOf (x : Int) : Int := x % 3600000 / 60000

def secondOf (x : Int) : Int := x % 60000 / 1000

/-- `convertLocalTimeInUTC` (src/app/utils/recurrenceUtils.js:80-85): read the
instant's wall clock in the zone and reinterpret those fields (truncated to
seconds) as UTC.  For a zone of fixed offset `off` milliseconds this is
`floorSec (t + off)`. -/
def convertLocalTimeInUTC (off t : Int) : Int := floorSec (t + off)

/-- `convertUTCDateToLocalTime` (src/app/utils/recurrenceUtils.js:87-94): read
the instant's UTC wall clock and reinterpret those fields (truncated to
seconds) in the zone:  `floorSec t - off`. -/
def convertUTCDateToLocalTime (off t : Int) : Int := floorSec t - off

/-! ### rrule expansion model (daily / weekly / monthly)

The source builds an `RRule` from the options assembled in
`generateOccurrences` (src lines 18-71) and calls `rule.all()`.  The library
is not part of the repository; its expansion is modelled from the spec's §4.1
description (RFC 5545 semantics): candidates are enumerated from the anchor in
"local-wall-clock-as-UTC" space, refinements restrict the candidate set,
candidates whose calendar date does not exist are dropped, `count` counts
emitted occurrences, `until` is inclusive and candidates before the anchor are
not emitted.  The library's finite iteration horizon is an explicit fuel. -/

/-- Collect up to `rem` candidate days, inspecting at most `fuel` candidates
(indices `i, i+1, …`): emitted when defined and `≥ lo`, skipped otherwise. -/
def collectCount (cand : Nat → Option Int) (lo : Int) :
    Nat → Nat → Nat → List Int
  | 0, _, _ => []
  | _ + 1, _, 0 => []
  | fuel + 1, i, rem + 1 =>
    match cand i with
    | some d =>
      if lo ≤ d then d :: collectCount cand lo fuel (i + 1) rem
      else collectCount cand lo fuel (i + 1) (rem + 1)
    | none => collectCount cand lo fuel (i + 1) (rem + 1)

/-- Collect candidate days that are defined, `≥ lo` and `≤ hi`, stopping at
the first candidate strictly beyond `hi` (UNTIL is inclusive). -/
def collectUntil (cand : Nat → Option Int) (lo hi : Int) :
    Nat → Nat → List Int
  | 0, _ => []
  | fuel + 1, i =>
    match cand i with
    | some d =>
      if hi < d then []
      else if lo ≤ d then d :: collectUntil cand lo hi fuel (i + 1)
      else collectUntil cand lo hi fuel (i + 1)
    | none => collectUntil cand lo hi fuel (i + 1)

/-- Monday-aligned week index of an epoch day (rrule default `wkst = MO`;
1970-01-05, epoch day 4, was a Monday). -/
def weekIndex (n : Int) : Int := (n - 4) / 7

/-- Epoch day of the `week`-th `dow` (0 = Sunday … 6 = Saturday) of month
`(y, m)`, as `RRule.XX.nth(week)` selects it, when it exists. -/
def nthWeekdayOfMonth (y : Int) (m : Nat) (dow week : Nat) : Option Int :=
  let fw := weekdayOfDay (dayNumber y m 1)
  let dd := 1 + ((dow : Int) - fw) % 7 + 7 * ((week : Int) - 1)
  if 1 ≤ dd ∧ dd ≤ (daysInMonth y m : Int) then some (dayNumber y m dd.toNat)
  else none

/-- Candidate epoch day `i` of the non-yearly rule anchored at epoch day `d0`
(with anchor civil date `c0 = civilFromDays d0`). -/
def nonYearlyCand (r : Recurrence) (d0 : Int) (c0 : Civil) (i : Nat) :
    Option Int :=
  match r.frequency with
  | .daily => some (d0 + (i : Int) * (intervalOr1 r : Int))
  | .weekly =>
    match r.daysOfWeek with
    | none => some (d0 + (i : Int) * (7 * (intervalOr1 r : Int)))
    | some l =>
      let d := d0 + (i : Int)
      if l.any (fun w => (w : Int) == weekdayOfDay d)
          && (weekIndex d - weekIndex d0) % (intervalOr1 r : Int) == 0 then
        some d
      else none
  | .monthly =>
    let mIdx := 12 * c0.year + (c0.month : Int) - 1 + (i : Int) * (intervalOr1 r : Int)
    let y := mIdx / 12
    let m := (mIdx % 12).toNat + 1
    match r.weekAndDayOfMonth with
    | some w => nthWeekdayOfMonth y m w.dayOfWeek w.weekOfMonth
    | none =>
      let dsel := if dayOfMonthTruthy r then r.dayOfMonth.getD 1 else c0.day
      if 1 ≤ dsel ∧ dsel ≤ daysInMonth y m then some (dayNumber y m dsel)
      else none
  | .yearly => none

/-- `Math.min(MAX_OCCURRENCES, recurrence.count)` (src line 36). -/
def cappedCount (r : Recurrence) : Nat := min 200 (r.count.getD 0)

/-- Iteration horizon of the modelled rrule expansion in candidates: generous
enough for every terminating pattern the claims touch, finite like the
library's. -/
def countFuel (r : Recurrence) (n : Nat) : Nat :=
  n * 100 * intervalOr1 r + 200

/-- daily / weekly / monthly expansion (`generateOccurrences` body after the
yearly branch, src lines 18-77). -/
def generateNonYearly (off startTime : Int) (r : Recurrence) : List Int :=
  let na := convertLocalTimeInUTC off startTime
  let d0 := na / msPerDay
  let tod := na % msPerDay
  let cand := nonYearlyCand r d0 (civilFromDays d0)
  let days :=
    if countTruthy r then
      collectCount cand d0 (countFuel r (cappedCount r)) 0 (cappedCount r)
    else if endDateTruthy r then
      let hi := convertLocalTimeInUTC off (r.endDate.getD 0)
      let hiDay := (hi - tod) / msPerDay
      collectUntil cand d0 hiDay ((hiDay - d0).toNat + 2) 0
    else
      collectCount cand d0 (countFuel r 1) 0 1
  days.map (fun d => convertUTCDateToLocalTime off (d * msPerDay + tod))

/-! ### Yearly expansion (src/app/utils/recurrenceUtils.js:96-174) -/

/-- One candidate yearly occurrence: `DateTime.fromObject({year, month, day,
hour, minute, second, millisecond}, {zone})`, `none` when the calendar date is
invalid (`occurrence.isValid` false). -/
def yearlyOccurrence (off tod : Int) (y : Int) (m d : Nat) : Option Int :=
  if 1 ≤ m ∧ m ≤ 12 ∧ 1 ≤ d ∧ d ≤ daysInMonth y m then
    some (dayNumber y m d * msPerDay + tod - off)
  else none

/-- The endDate-terminated year loop (src lines 128-155): while
`currentYear ≤ endDateTime.year`, push a valid occurrence `≤ endDate`, break
after a valid occurrence `> endDate`, keep stepping by `interval` over invalid
dates. -/
def yearlyEndLoop (off tod e : Int) (m d : Nat) (ey : Int) (step : Nat) :
    Nat → Int → List Int
  | 0, _ => []
  | fuel + 1, y =>
    if y ≤ ey then
      match yearlyOccurrence off tod y m d with
      | some occ =>
        if occ ≤ e then occ :: yearlyEndLoop off tod e m d ey step fuel (y + step)
        else []
      | none => yearlyEndLoop off tod e m d ey step fuel (y + step)
    else []

/-- The bound of the yearly count loop (src line 111):
`typeof count === 'number' && count > 0 && count <= 200 ? count : 200`. -/
def yearlyCountLimit (r : Recurrence) : Nat :=
  if 1 ≤ r.count.getD 0 ∧ r.count.getD 0 ≤ 200 then r.count.getD 0 else 200

/-- `generateYearlyOccurrences` (src lines 96-174), for a zone of fixed offset
`off`.  The anchor's local year/month/day and full time-of-day (milliseconds
included) are taken from `startTime` read in the zone. -/
def generateYearlyOccurrences (off startTime : Int) (r : Recurrence) :
    List Int :=
  let w := startTime + off
  let c0 := civilFromDays (w / msPerDay)
  let tod := w % msPerDay
  if countTruthy r then
    (List.range (yearlyCountLimit r)).filterMap
      (fun i : Nat => yearlyOccurrence off tod (c0.year + (i : Int)) c0.month c0.day)
  else if endDateTruthy r then
    let e := r.endDate.getD 0
    let ey := (civilFromDays ((e + off) / msPerDay)).year
    yearlyEndLoop off tod e c0.month c0.day ey (intervalOr1 r)
      ((ey - c0.year).toNat + 1) c0.year
  else
    (yearlyOccurrence off tod c0.year c0.month c0.day).toList

/-- `generateOccurrences` (src/app/utils/recurrenceUtils.js:6-78), for a zone
of fixed offset `off` milliseconds.  Throwing is modelled by `Except.error`. -/
def generateOccurrences (off startTime : Int) (recurrence : Recurrence) :
    Except String (List Int) :=
  if ¬ tzTruthy recurrence then
    .error "Timezone is required for recurrence patterns"
  else if recurrence.frequency = .yearly then
    .ok (generateYearlyOccurrences off startTime recurrence)
  else
    .ok (generateNonYearly off startTime recurrence)

/-! ### Arithmetic facts about the millisecond helpers -/

/-- Wall-clock time-of-day fields, to the second. -/
def hms (x : Int) : Int × Int × Int := (hourOf x, minuteOf x, secondOf x)

theorem hms_floorSec (w : Int) : hms (floorSec w) = hms w := by
  unfold hms hourOf minuteOf secondOf floorSec
  refine Prod.ext ?_ (Prod.ext ?_ ?_) <;> simp only <;> omega

theorem hms_addDay (d x : Int) : hms (d * msPerDay + x) = hms x := by
  unfold hms hourOf minuteOf secondOf msPerDay
  refine Prod.ext ?_ (Prod.ext ?_ ?_) <;> simp only <;> omega

theorem hms_mod_day (x : Int) : hms (x % msPerDay) = hms x := by
  unfold hms hourOf minuteOf secondOf msPerDay
  refine Prod.ext ?_ (Prod.ext ?_ ?_) <;> simp only <;> omega

theorem floorSec_mod_thousand (x : Int) : floorSec x % 1000 = 0 := by
  unfold floorSec; omega

theorem floorSec_id {x : Int} (h : x % 1000 = 0) : floorSec x = x := by
  unfold floorSec; omega

theorem tod_nonneg (na : Int) : 0 ≤ na % msPerDay := by
  unfold msPerDay; omega

theorem tod_lt (na : Int) : na % msPerDay < msPerDay := by
  unfold msPerDay; omega

theorem tod_mod_thousand {na : Int} (h : na % 1000 = 0) :
    (na % msPerDay) % 1000 = 0 := by
  unfold msPerDay; omega

/-! ### Collector lemmas -/

theorem collectCount_length_le (cand : Nat → Option Int) (lo : Int) :
    ∀ (fuel i rem : Nat), (collectCount cand lo fuel i rem).length ≤ rem := by
  intro fuel
  induction fuel with
  | zero => intro i rem; simp [collectCount]
  | succ fuel ih =>
    intro i rem
    match rem with
    | 0 => simp [collectCount]
    | rem + 1 =>
      rw [collectCount]
      match cand i with
      | some d =>
        dsimp only
        split
        · simpa using Nat.succ_le_succ (ih (i + 1) rem)
        · exact ih (i + 1) (rem + 1)
      | none => exact ih (i + 1) (rem + 1)

theorem collectCount_mem (cand : Nat → Option Int) (lo : Int) :
    ∀ (fuel i rem : Nat) (x : Int), x ∈ collectCount cand lo fuel i rem →
      ∃ j, i ≤ j ∧ cand j = some x ∧ lo ≤ x := by
  intro fuel
  induction fuel with
  | zero => intro i rem x hx; simp [collectCount] at hx
  | succ fuel ih =>
    intro i rem x hx
    match rem with
    | 0 => simp [collectCount] at hx
    | rem + 1 =>
      rw [collectCount] at hx
      revert hx
      match hc : cand i with
      | some d =>
        dsimp only
        split
        · intro hx
          rcases List.mem_cons.mp hx with rfl | hx
          · exact ⟨i, Nat.le_refl i, hc, by assumption⟩
          · rcases ih (i + 1) rem x hx with ⟨j, hj, h1, h2⟩
            exact ⟨j, by omega, h1, h2⟩
        · intro hx
          rcases ih (i + 1) (rem + 1) x hx with ⟨j, hj, h1, h2⟩
          exact ⟨j, by omega, h1, h2⟩
      | none =>
        intro hx
        rcases ih (i + 1) (rem + 1) x hx with ⟨j, hj, h1, h2⟩
        exact ⟨j, by omega, h1, h2⟩

/-- Candidates strictly increasing along indices. -/
def CandMono (cand : Nat → Option Int) : Prop :=
  ∀ (j j' : Nat) (d d' : Int), j < j' → cand j = some d → cand j' = some d' →
    d < d'

theorem collectCount_pairwise (cand : Nat → Option Int) (lo : Int)
    (hmono : CandMono cand) :
    ∀ (fuel i rem : Nat), (collectCount cand lo fuel i rem).Pairwise (· < ·) := by
  intro fuel
  induction fuel with
  | zero => intro i rem; simp [collectCount]
  | succ fuel ih =>
    intro i rem
    match rem with
    | 0 => simp [collectCount]
    | rem + 1 =>
      rw [collectCount]
      match hc : cand i with
      | some d =>
        dsimp only
        split
        · refine List.pairwise_cons.mpr ⟨?_, ih (i + 1) rem⟩
          intro x hx
          rcases collectCount_mem cand lo fuel (i + 1) rem x hx with ⟨j, hj, h1, _⟩
          exact hmono i j d x (by omega) hc h1
        · exact ih (i + 1) (rem + 1)
      | none => exact ih (i + 1) (rem + 1)

theorem collectCount_length_eq (cand : Nat → Option Int) (lo : Int)
    (hall : ∀ j, ∃ d, cand j = some d ∧ lo ≤ d) :
    ∀ (fuel i rem : Nat), rem ≤ fuel →
      (collectCount cand lo fuel i rem).length = rem := by
  intro fuel
  induction fuel with
  | zero => intro i rem h; interval_cases rem; simp [collectCount]
  | succ fuel ih =>
    intro i rem h
    match rem with
    | 0 => simp [collectCount]
    | rem + 1 =>
      rw [collectCount]
      rcases hall i with ⟨d, hd, hlo⟩
      rw [hd]
      dsimp only
      rw [if_pos hlo]
      simpa using ih (i + 1) rem (by omega)

theorem collectUntil_mem (cand : Nat → Option Int) (lo hi : Int) :
    ∀ (fuel i : Nat) (x : Int), x ∈ collectUntil cand lo hi fuel i →
      ∃ j, i ≤ j ∧ cand j = some x ∧ lo ≤ x ∧ x ≤ hi := by
  intro fuel
  induction fuel with
  | zero => intro i x hx; simp [collectUntil] at hx
  | succ fuel ih =>
    intro i x hx
    rw [collectUntil] at hx
    revert hx
    match hc : cand i with
    | some d =>
      dsimp only
      split
      · intro hx; simp at hx
      · split
        · intro hx
          rcases List.mem_cons.mp hx with rfl | hx
          · exact ⟨i, Nat.le_refl i, hc, by assumption, by omega⟩
          · rcases ih (i + 1) x hx with ⟨j, hj, h1, h2, h3⟩
            exact ⟨j, by omega, h1, h2, h3⟩
        · intro hx
          rcases ih (i + 1) x hx with ⟨j, hj, h1, h2, h3⟩
          exact ⟨j, by omega, h1, h2, h3⟩
    | none =>
      intro hx
      rcases ih (i + 1) x hx with ⟨j, hj, h1, h2, h3⟩
      exact ⟨j, by omega, h1, h2, h3⟩

theorem collectUntil_pairwise (cand : Nat → Option Int) (lo hi : Int)
    (hmono : CandMono cand) :
    ∀ (fuel i : Nat), (collectUntil cand lo hi fuel i).Pairwise (· < ·) := by
  intro fuel
  induction fuel with
  | zero => intro i; simp [collectUntil]
  | succ fuel ih =>
    intro i
    rw [collectUntil]
    match hc : cand i with
    | some d =>
      dsimp only
      split
      · simp
      · split
        · refine List.pairwise_cons.mpr ⟨?_, ih (i + 1)⟩
          intro x hx
          rcases collectUntil_mem cand lo hi fuel (i + 1) x hx with ⟨j, hj, h1, _, _⟩
          exact hmono i j d x (by omega) hc h1
        · exact ih (i + 1)
    | none => exact ih (i + 1)

/-! ### Validity of `civilFromDays` outputs -/

theorem sumDims_1_12 (y : Int) : sumDims y 1 12 = daysInYear y := by
  have h := daysBeforeMonth_sumDims y 12 1 (by omega)
  rw [show (1 : Nat) + 12 = 13 from rfl, daysBeforeMonth_13] at h
  have h1 : daysBeforeMonth y 1 = 0 := rfl
  omega

theorem daysInYear_ge (y : Int) : 365 ≤ daysInYear y := by
  unfold daysInYear; split <;> decide

theorem monthScan_valid :
    ∀ (c : Nat) (y : Int) (m r fuel : Nat), r < sumDims y m c → c ≤ fuel + 1 →
      m ≤ (monthScan y fuel m r).month ∧ (monthScan y fuel m r).month < m + c ∧
      (monthScan y fuel m r).year = y ∧ 1 ≤ (monthScan y fuel m r).day ∧
      (monthScan y fuel m r).day ≤ daysInMonth y (monthScan y fuel m r).month := by
  intro c
  induction c with
  | zero => intro y m r fuel hr _; simp [sumDims] at hr
  | succ c ih =>
    intro y m r fuel hr hc
    by_cases h : r < daysInMonth y m
    · match fuel with
      | 0 =>
        rw [monthScan]
        refine ⟨?_, ?_, rfl, ?_, ?_⟩ <;> dsimp only <;> omega
      | fuel + 1 =>
        rw [monthScan, if_pos h]
        refine ⟨?_, ?_, rfl, ?_, ?_⟩ <;> dsimp only <;> omega
    · match fuel with
      | 0 =>
        rw [sumDims] at hr
        have : c = 0 := by omega
        subst this
        simp [sumDims] at hr
        omega
      | fuel + 1 =>
        rw [monthScan, if_neg h]
        rw [sumDims] at hr
        have h2 := ih y (m + 1) (r - daysInMonth y m) fuel (by omega) (by omega)
        exact ⟨by omega, by omega, h2.2.2.1, h2.2.2.2.1, h2.2.2.2.2⟩

theorem civPos_valid :
    ∀ (fuel : Nat) (y : Int) (k : Nat), k ≤ 365 * fuel + 364 →
      y ≤ (civPos fuel y k).year ∧ 1 ≤ (civPos fuel y k).month ∧
      (civPos fuel y k).month ≤ 12 ∧ 1 ≤ (civPos fuel y k).day ∧
      (civPos fuel y k).day
        ≤ daysInMonth (civPos fuel y k).year (civPos fuel y k).month := by
  intro fuel
  induction fuel with
  | zero =>
    intro y k hk
    have hge := daysInYear_ge y
    have h2 := monthScan_valid 12 y 1 k 12 (by rw [sumDims_1_12]; omega) (by omega)
    rcases h2 with ⟨ha, hb, hc, hd, he⟩
    rw [show civPos 0 y k = monthScan y 12 1 k from rfl, hc]
    exact ⟨Int.le_refl y, ha, by omega, hd, he⟩
  | succ fuel ih =>
    intro y k hk
    rw [civPos]
    by_cases h : k < daysInYear y
    · rw [if_pos h]
      have h2 := monthScan_valid 12 y 1 k 12 (by rw [sumDims_1_12]; omega) (by omega)
      rcases h2 with ⟨ha, hb, hc, hd, he⟩
      rw [hc]
      exact ⟨Int.le_refl y, ha, by omega, hd, he⟩
    · rw [if_neg h]
      have hge := daysInYear_ge y
      have h2 := ih (y + 1) (k - daysInYear y) (by omega)
      exact ⟨by omega, h2.2.1, h2.2.2.1, h2.2.2.2.1, h2.2.2.2.2⟩

/-- For a non-negative epoch day, `civilFromDays` returns a valid civil date
of year at least 1970. -/
theorem civilFromDays_valid {n : Int} (hn : 0 ≤ n) :
    1970 ≤ (civilFromDays n).year ∧ 1 ≤ (civilFromDays n).month ∧
    (civilFromDays n).month ≤ 12 ∧ 1 ≤ (civilFromDays n).day ∧
    (civilFromDays n).day ≤
      daysInMonth (civilFromDays n).year (civilFromDays n).month := by
  unfold civilFromDays
  rw [if_pos hn]
  exact civPos_valid (n.toNat / 365 + 1) 1970 n.toNat (by omega)

/-! ### Monotonicity of the candidate streams -/

/-- Shape of an emitted monthly candidate. -/
theorem monthly_cand_shape (r : Recurrence) (d0 : Int) (c0 : Civil) (i : Nat)
    (d : Int) (hfreq : r.frequency = .monthly)
    (hc : nonYearlyCand r d0 c0 i = some d) :
    ∃ (y : Int) (m dd : Nat),
      y = (12 * c0.year + (c0.month : Int) - 1 + (i : Int) * (intervalOr1 r : Int)) / 12 ∧
      (m : Int) = (12 * c0.year + (c0.month : Int) - 1 + (i : Int) * (intervalOr1 r : Int)) % 12 + 1 ∧
      1 ≤ dd ∧ dd ≤ daysInMonth y m ∧ d = dayNumber y m dd := by
  unfold nonYearlyCand at hc
  rw [hfreq] at hc
  dsimp only at hc
  rcases hw : r.weekAndDayOfMonth with _ | w
  · rw [hw] at hc
    dsimp only at hc
    generalize (if dayOfMonthTruthy r then r.dayOfMonth.getD 1 else c0.day) = dsel at hc
    split at hc
    · obtain rfl := Option.some.inj hc
      rename_i hguard
      exact ⟨_, _, dsel, rfl, by omega, hguard.1, hguard.2, rfl⟩
    · simp at hc
  · rw [hw] at hc
    dsimp only at hc
    unfold nthWeekdayOfMonth at hc
    dsimp only at hc
    split at hc
    · obtain rfl := Option.some.inj hc
      rename_i hguard
      refine ⟨_, _, _, rfl, by omega, by omega, by omega, rfl⟩
    · simp at hc

theorem nonYearlyCand_mono (r : Recurrence) (d0 : Int) (c0 : Civil) :
    CandMono (nonYearlyCand r d0 c0) := by
  intro j j' d d' hjj hc hc'
  have hk := intervalOr1_pos r
  have hjInt : (j : Int) < (j' : Int) := by exact_mod_cast hjj
  have hkInt : (1 : Int) ≤ (intervalOr1 r : Int) := by exact_mod_cast hk
  rcases hfreq : r.frequency with _ | _ | _ | _
  · unfold nonYearlyCand at hc hc'
    rw [hfreq] at hc hc'
    dsimp only at hc hc'
    obtain rfl := Option.some.inj hc
    obtain rfl := Option.some.inj hc'
    nlinarith
  · unfold nonYearlyCand at hc hc'
    rw [hfreq] at hc hc'
    dsimp only at hc hc'
    rcases hdw : r.daysOfWeek with _ | l
    · rw [hdw] at hc hc'
      dsimp only at hc hc'
      obtain rfl := Option.some.inj hc
      obtain rfl := Option.some.inj hc'
      nlinarith
    · rw [hdw] at hc hc'
      dsimp only at hc hc'
      split at hc
      · obtain rfl := Option.some.inj hc
        split at hc'
        · obtain rfl := Option.some.inj hc'
          omega
        · exact absurd hc' (by simp)
      · exact absurd hc (by simp)
  · have h1 := monthly_cand_shape r d0 c0 j d hfreq hc
    have h2 := monthly_cand_shape r d0 c0 j' d' hfreq hc'
    rcases h1 with ⟨y, m, dd, hy, hm, hdd1, hdd2, rfl⟩
    rcases h2 with ⟨y', m', dd', hy', hm', hdd1', hdd2', rfl⟩
    have hmIdx : 12 * c0.year + (c0.month : Int) - 1 + (j : Int) * (intervalOr1 r : Int)
        < 12 * c0.year + (c0.month : Int) - 1 + (j' : Int) * (intervalOr1 r : Int) := by
      nlinarith
    have hlex : y < y' ∨ (y = y' ∧ m < m') := by omega
    have hm12 : m ≤ 12 := by omega
    have hm12' : m' ≤ 12 := by omega
    have hm1 : 1 ≤ m := by omega
    have hm1' : 1 ≤ m' := by omega
    apply dayNumber_lt_dayNumber hm1 hm12 hdd1 hdd2 hm1' hm12' hdd1' hdd2'
    tauto
  · unfold nonYearlyCand at hc
    rw [hfreq] at hc
    exact absurd hc (by simp)

/-! ### Shape of generator outputs -/

theorem conv_strictMono (off tod : Int) {d d' : Int} (h : d < d') :
    convertUTCDateToLocalTime off (d * msPerDay + tod)
      < convertUTCDateToLocalTime off (d' * msPerDay + tod) := by
  unfold convertUTCDateToLocalTime floorSec msPerDay
  omega

theorem generateNonYearly_pairwise (off startTime : Int) (r : Recurrence) :
    (generateNonYearly off startTime r).Pairwise (· < ·) := by
  unfold generateNonYearly
  dsimp only
  have hmono := nonYearlyCand_mono r (convertLocalTimeInUTC off startTime / msPerDay)
    (civilFromDays (convertLocalTimeInUTC off startTime / msPerDay))
  split
  · exact List.Pairwise.map _ (fun a b hab => conv_strictMono off _ hab)
      (collectCount_pairwise _ _ hmono _ _ _)
  · split
    · exact List.Pairwise.map _ (fun a b hab => conv_strictMono off _ hab)
        (collectUntil_pairwise _ _ _ hmono _ _)
    · exact List.Pairwise.map _ (fun a b hab => conv_strictMono off _ hab)
        (collectCount_pairwise _ _ hmono _ _ _)

theorem generateNonYearly_mem (off startTime : Int) (r : Recurrence) (t : Int)
    (ht : t ∈ generateNonYearly off startTime r) :
    ∃ (dd : Int) (j : Nat),
      nonYearlyCand r (convertLocalTimeInUTC off startTime / msPerDay)
        (civilFromDays (convertLocalTimeInUTC off startTime / msPerDay)) j
          = some dd ∧
      convertLocalTimeInUTC off startTime / msPerDay ≤ dd ∧
      t = dd * msPerDay + convertLocalTimeInUTC off startTime % msPerDay - off := by
  unfold generateNonYearly at ht
  dsimp only at ht
  rcases List.mem_map.mp ht with ⟨d, hd, rfl⟩
  have htod : (convertLocalTimeInUTC off startTime % msPerDay) % 1000 = 0 :=
    tod_mod_thousand (floorSec_mod_thousand (startTime + off))
  have hconv : convertUTCDateToLocalTime off
      (d * msPerDay + convertLocalTimeInUTC off startTime % msPerDay)
      = d * msPerDay + convertLocalTimeInUTC off startTime % msPerDay - off := by
    unfold convertUTCDateToLocalTime
    rw [floorSec_id (by unfold msPerDay at htod ⊢; omega)]
  rw [hconv]
  split at hd
  · rcases collectCount_mem _ _ _ _ _ _ hd with ⟨j, _, hcand, hlo⟩
    exact ⟨d, j, hcand, hlo, rfl⟩
  · split at hd
    · rcases collectUntil_mem _ _ _ _ _ _ hd with ⟨j, _, hcand, hlo, _⟩
      exact ⟨d, j, hcand, hlo, rfl⟩
    · rcases collectCount_mem _ _ _ _ _ _ hd with ⟨j, _, hcand, hlo⟩
      exact ⟨d, j, hcand, hlo, rfl⟩

/-! ### Shape of yearly outputs -/

theorem yearlyOccurrence_shape {off tod : Int} {y : Int} {m d : Nat} {t : Int}
    (h : yearlyOccurrence off tod y m d = some t) :
    1 ≤ m ∧ m ≤ 12 ∧ 1 ≤ d ∧ d ≤ daysInMonth y m ∧
    t = dayNumber y m d * msPerDay + tod - off := by
  unfold yearlyOccurrence at h
  split at h
  · obtain rfl := Option.some.inj h
    rename_i hg
    exact ⟨hg.1, hg.2.1, hg.2.2.1, hg.2.2.2, rfl⟩
  · exact absurd h (by simp)

theorem yearlyEndLoop_mem (off tod e : Int) (m d : Nat) (ey : Int) (step : Nat) :
    ∀ (fuel : Nat) (y : Int) (t : Int),
      t ∈ yearlyEndLoop off tod e m d ey step fuel y →
      ∃ j : Nat, yearlyOccurrence off tod (y + (j : Int) * (step : Int)) m d = some t := by
  intro fuel
  induction fuel with
  | zero => intro y t ht; simp [yearlyEndLoop] at ht
  | succ fuel ih =>
    intro y t ht
    rw [yearlyEndLoop] at ht
    split at ht
    · revert ht
      match hocc : yearlyOccurrence off tod y m d with
      | some occ =>
        dsimp only
        split
        · intro ht
          rcases List.mem_cons.mp ht with rfl | ht
          · exact ⟨0, by simpa using hocc⟩
          · rcases ih (y + step) t ht with ⟨j, hj⟩
            refine ⟨j + 1, ?_⟩
            have harith : y + (step : Int) + (j : Int) * (step : Int)
                = y + ((j : Nat) + 1 : Nat) * (step : Int) := by push_cast; ring
            rw [← harith]
            exact hj
        · intro ht; simp at ht
      | none =>
        intro ht
        rcases ih (y + step) t ht with ⟨j, hj⟩
        refine ⟨j + 1, ?_⟩
        have harith : y + (step : Int) + (j : Int) * (step : Int)
            = y + ((j : Nat) + 1 : Nat) * (step : Int) := by push_cast; ring
        rw [← harith]
        exact hj
    · simp at ht

theorem yearlyOccurrence_mono {off tod : Int} {m d : Nat} {y y' : Int}
    {t t' : Int} (hy : y < y') (h : yearlyOccurrence off tod y m d = some t)
    (h' : yearlyOccurrence off tod y' m d = some t') : t < t' := by
  rcases yearlyOccurrence_shape h with ⟨hm1, hm2, hd1, hd2, rfl⟩
  rcases yearlyOccurrence_shape h' with ⟨_, _, _, hd2', rfl⟩
  have := dayNumber_lt_dayNumber hm1 hm2 hd1 hd2 hm1 hm2 hd1 hd2' (Or.inl hy)
  have hms : (0 : Int) < msPerDay := by unfold msPerDay; omega
  nlinarith

theorem yearlyEndLoop_pairwise (off tod e : Int) (m d : Nat) (ey : Int)
    (step : Nat) (hstep : 1 ≤ step) :
    ∀ (fuel : Nat) (y : Int),
      (yearlyEndLoop off tod e m d ey step fuel y).Pairwise (· < ·) := by
  intro fuel
  induction fuel with
  | zero => intro y; simp [yearlyEndLoop]
  | succ fuel ih =>
    intro y
    rw [yearlyEndLoop]
    split
    · match hocc : yearlyOccurrence off tod y m d with
      | some occ =>
        dsimp only
        split
        · refine List.pairwise_cons.mpr ⟨?_, ih (y + step)⟩
          intro t ht
          rcases yearlyEndLoop_mem off tod e m d ey step fuel (y + step) t ht
            with ⟨j, hj⟩
          refine yearlyOccurrence_mono ?_ hocc hj
          have : (1 : Int) ≤ (step : Int) := by exact_mod_cast hstep
          nlinarith [Int.natCast_nonneg j]
        · simp
      | none => exact ih (y + step)
    · simp

theorem generateYearly_pairwise (off startTime : Int) (r : Recurrence) :
    (generateYearlyOccurrences off startTime r).Pairwise (· < ·) := by
  unfold generateYearlyOccurrences
  dsimp only
  split
  · rw [List.pairwise_filterMap]
    refine List.Pairwise.imp ?_ (List.pairwise_lt_range _)
    intro i i' hii b hb b' hb'
    rw [Option.mem_def] at hb hb'
    exact yearlyOccurrence_mono (by omega) hb hb'
  · split
    · exact yearlyEndLoop_pairwise _ _ _ _ _ _ _ (intervalOr1_pos r) _ _
    · rcases h : yearlyOccurrence off (( startTime + off) % msPerDay)
        (civilFromDays ((startTime + off) / msPerDay)).year
        (civilFromDays ((startTime + off) / msPerDay)).month
        (civilFromDays ((startTime + off) / msPerDay)).day with _ | v
      · simp [h]
      · simp [h]

theorem generateYearly_mem (off startTime : Int) (r : Recurrence) (t : Int)
    (ht : t ∈ generateYearlyOccurrences off startTime r) :
    ∃ y : Int,
      (civilFromDays ((startTime + off) / msPerDay)).year ≤ y ∧
      yearlyOccurrence off ((startTime + off) % msPerDay) y
        (civilFromDays ((startTime + off) / msPerDay)).month
        (civilFromDays ((startTime + off) / msPerDay)).day = some t := by
  unfold generateYearlyOccurrences at ht
  dsimp only at ht
  split at ht
  · rcases List.mem_filterMap.mp ht with ⟨i, _, hi⟩
    exact ⟨_, by omega, hi⟩
  · split at ht
    · rcases yearlyEndLoop_mem _ _ _ _ _ _ _ _ _ _ ht with ⟨j, hj⟩
      refine ⟨_, ?_, hj⟩
      have h0 : (0 : Int) ≤ (j : Int) * ((intervalOr1 r : Nat) : Int) := by positivity
      omega
    · rcases ho : yearlyOccurrence off ((startTime + off) % msPerDay)
          (civilFromDays ((startTime + off) / msPerDay)).year
          (civilFromDays ((startTime + off) / msPerDay)).month
          (civilFromDays ((startTime + off) / msPerDay)).day with _ | v
      · rw [ho] at ht; simp at ht
      · rw [ho] at ht
        simp only [Option.toList_some, List.mem_singleton] at ht
        subst ht
        exact ⟨_, Int.le_refl _, ho⟩

/-! ### Claim theorems about the occurrence generator -/

/-- C5: for every rule and anchor (the rule's zone modelled by its fixed
offset `off`), the list returned by `generateOccurrences` is strictly
increasing, and every returned timestamp, read as wall-clock time in the
rule's timezone, has the same hour, minute and second as the anchor read in
that timezone. -/
theorem C5_sorted_and_wallclock (off startTime : Int) (r : Recurrence)
    (out : List Int) (h : generateOccurrences off startTime r = .ok out) :
    out.Pairwise (· < ·) ∧ ∀ t ∈ out, hms (t + off) = hms (startTime + off) := by
  unfold generateOccurrences at h
  split at h
  · exact Except.noConfusion h
  · split at h
    · obtain rfl := Except.ok.inj h
      refine ⟨generateYearly_pairwise off startTime r, ?_⟩
      intro t ht
      rcases generateYearly_mem off startTime r t ht with ⟨y, _, hy⟩
      rcases yearlyOccurrence_shape hy with ⟨_, _, _, _, rfl⟩
      rw [sub_add_cancel, hms_addDay, hms_mod_day]
    · obtain rfl := Except.ok.inj h
      refine ⟨generateNonYearly_pairwise off startTime r, ?_⟩
      intro t ht
      rcases generateNonYearly_mem off startTime r t ht with ⟨dd, j, _, _, rfl⟩
      rw [sub_add_cancel, hms_addDay]
      unfold convertLocalTimeInUTC
      rw [hms_mod_day, hms_floorSec]

/-- Witness for C5 at a concrete input: daily rule, interval 2, count 3,
UTC, anchored 2024-01-01T09:00:00Z (the spec's §8 scenario). -/
theorem C5_witness :
    ([1704099600000, 1704272400000, 1704445200000] : List Int).Pairwise (· < ·) ∧
    ∀ t ∈ ([1704099600000, 1704272400000, 1704445200000] : List Int),
      hms (t + 0) = hms ((1704099600000 : Int) + 0) :=
  C5_sorted_and_wallclock 0 1704099600000
    { frequency := Frequency.daily, interval := some 2, count := some 3,
      timezone := some "UTC" } _ rfl

/-- C9: for every anchor and every rule whose timezone is absent or empty,
`generateOccurrences` fails fast with an error (and hence produces no
occurrences), for every frequency. -/
theorem C9_timezone_required (off startTime : Int) (r : Recurrence)
    (h : tzTruthy r = false) :
    generateOccurrences off startTime r
      = .error "Timezone is required for recurrence patterns" := by
  unfold generateOccurrences
  rw [if_pos]
  simp [h]

/-- Witness for C9: a daily rule with no timezone field, and a yearly rule
with an empty timezone string. -/
theorem C9_witness :
    generateOccurrences 0 0 { frequency := Frequency.daily }
      = .error "Timezone is required for recurrence patterns" ∧
    generateOccurrences 0 0
        { frequency := Frequency.yearly, timezone := some "" }
      = .error "Timezone is required for recurrence patterns" :=
  ⟨C9_timezone_required 0 0 _ rfl, C9_timezone_required 0 0 _ rfl⟩

/-! ### C1: the 200-occurrence safety ceiling -/

theorem yearlyCountLimit_le (r : Recurrence) : yearlyCountLimit r ≤ 200 := by
  unfold yearlyCountLimit
  split <;> omega

/-- C1 (amended): the 200-occurrence safety ceiling bounds the output whenever
`count` is set (for every frequency); on the endDate-only path no ceiling is
applied (see the counterexample). -/
theorem C1_count_capped (off startTime : Int) (r : Recurrence)
    (out : List Int) (hc : countTruthy r = true)
    (h : generateOccurrences off startTime r = .ok out) :
    out.length ≤ 200 := by
  unfold generateOccurrences at h
  split at h
  · exact Except.noConfusion h
  · split at h
    · obtain rfl := Except.ok.inj h
      unfold generateYearlyOccurrences
      dsimp only
      rw [if_pos hc]
      have h1 := List.length_filterMap_le
        (fun i : Nat => yearlyOccurrence off ((startTime + off) % msPerDay)
          ((civilFromDays ((startTime + off) / msPerDay)).year + (i : Int))
          (civilFromDays ((startTime + off) / msPerDay)).month
          (civilFromDays ((startTime + off) / msPerDay)).day)
        (List.range (yearlyCountLimit r))
      rw [List.length_range] at h1
      have h2 := yearlyCountLimit_le r
      omega
    · obtain rfl := Except.ok.inj h
      unfold generateNonYearly
      dsimp only
      rw [if_pos hc, List.length_map]
      have h1 := collectCount_length_le
        (nonYearlyCand r (convertLocalTimeInUTC off startTime / msPerDay)
          (civilFromDays (convertLocalTimeInUTC off startTime / msPerDay)))
        (convertLocalTimeInUTC off startTime / msPerDay)
        (countFuel r (cappedCount r)) 0 (cappedCount r)
      unfold cappedCount at h1 ⊢
      omega

/-- Witness for the C1 amended theorem: a daily rule with `count = 1000` is
capped at 200 occurrences. -/
theorem C1_witness :
    ((generateOccurrences 0 0
      { frequency := Frequency.daily, count := some 1000,
        timezone := some "UTC" }).toOption.getD []).length ≤ 200 := by
  have h := C1_count_capped 0 0
    { frequency := Frequency.daily, count := some 1000, timezone := some "UTC" }
    ((generateOccurrences 0 0
      { frequency := Frequency.daily, count := some 1000,
        timezone := some "UTC" }).toOption.getD []) rfl rfl
  exact h

set_option maxRecDepth 40000 in
/-- C1 counterexample: a yearly rule with no `count` and an `endDate` 250
years after the anchor (anchor 2024-03-15T00:00Z, endDate 2274-03-15T00:00Z,
zone UTC) yields 251 occurrences — the claimed 200-occurrence ceiling is not
enforced on the endDate-only path. -/
theorem C1_counterexample :
    200 < ((generateOccurrences 0 1710460800000
      { frequency := Frequency.yearly, endDate := some 9599644800000,
        timezone := some "UTC" }).toOption.getD []).length := by
  decide

/-! ### C4: exact output counts under `count = N` -/

theorem length_filterMap_add_none {α β : Type} (f : α → Option β) :
    ∀ l : List α,
      (l.filterMap f).length + (l.filter (fun a => (f a).isNone)).length
        = l.length := by
  intro l
  induction l with
  | nil => simp
  | cons a l ih =>
    rcases ha : f a with _ | b <;>
      simp [List.filterMap_cons, List.filter_cons, ha] <;> omega

/-- Number of enumerated years with an invalid (skipped) month/day in the
yearly count branch. -/
def yearlySkippedCount (off startTime : Int) (r : Recurrence) : Nat :=
  ((List.range (yearlyCountLimit r)).filter
    (fun i : Nat => (yearlyOccurrence off ((startTime + off) % msPerDay)
      ((civilFromDays ((startTime + off) / msPerDay)).year + (i : Int))
      (civilFromDays ((startTime + off) / msPerDay)).month
      (civilFromDays ((startTime + off) / msPerDay)).day).isNone)).length

/-- C4 (amended): with `count = N ≥ 1` and any anchor, daily rules (and weekly
rules without a weekday set) yield exactly `min N 200` occurrences; weekly
rules with a weekday set and monthly rules yield at most `min N 200` (months
lacking the selected day are skipped, so strictly fewer is possible — see the
counterexample); yearly rules yield `min N 200` minus the number of enumerated
years whose month/day is invalid. -/
theorem C4_count_exactness (off startTime : Int) (r : Recurrence) (N : Nat)
    (out : List Int) (hcount : r.count = some N) (hN : 1 ≤ N)
    (h : generateOccurrences off startTime r = .ok out) :
    (r.frequency = .daily → out.length = min N 200) ∧
    (r.frequency = .weekly → r.daysOfWeek = none → out.length = min N 200) ∧
    (r.frequency = .weekly ∨ r.frequency = .monthly → out.length ≤ min N 200) ∧
    (r.frequency = .yearly →
      out.length + yearlySkippedCount off startTime r = min N 200) := by
  have hct : countTruthy r = true := by
    unfold countTruthy
    rw [hcount]
    simpa using by omega
  have hcap : cappedCount r = min N 200 := by
    unfold cappedCount
    rw [hcount]
    simp [Nat.min_comm]
  have hkpos := intervalOr1_pos r
  have hfuel : cappedCount r ≤ countFuel r (cappedCount r) := by
    unfold countFuel
    nlinarith
  unfold generateOccurrences at h
  split at h
  · exact Except.noConfusion h
  · split at h
    · -- yearly
      obtain rfl := Except.ok.inj h
      rename_i hyr
      refine ⟨by intro hf; rw [hf] at hyr; exact absurd hyr (by decide),
        by intro hf _; rw [hf] at hyr; exact absurd hyr (by decide),
        by intro hf; rcases hf with hf | hf <;> rw [hf] at hyr <;>
          exact absurd hyr (by decide), ?_⟩
      intro _
      unfold generateYearlyOccurrences
      dsimp only
      rw [if_pos hct]
      unfold yearlySkippedCount
      rw [length_filterMap_add_none, List.length_range]
      unfold yearlyCountLimit
      rw [hcount]
      simp only [Option.getD_some]
      split <;> omega
    · -- daily / weekly / monthly
      obtain rfl := Except.ok.inj h
      rename_i hnyr
      have hub : (generateNonYearly off startTime r).length ≤ min N 200 := by
        unfold generateNonYearly
        dsimp only
        rw [if_pos hct, List.length_map]
        have h1 := collectCount_length_le
          (nonYearlyCand r (convertLocalTimeInUTC off startTime / msPerDay)
            (civilFromDays (convertLocalTimeInUTC off startTime / msPerDay)))
          (convertLocalTimeInUTC off startTime / msPerDay)
          (countFuel r (cappedCount r)) 0 (cappedCount r)
        omega
      refine ⟨?_, ?_, fun _ => hub, by intro hf; rw [hf] at hnyr; exact absurd rfl hnyr⟩
      · intro hf
        unfold generateNonYearly
        dsimp only
        rw [if_pos hct, List.length_map]
        rw [← hcap]
        refine collectCount_length_eq _ _ ?_ _ _ _ hfuel
        intro j
        have hc : nonYearlyCand r (convertLocalTimeInUTC off startTime / msPerDay)
            (civilFromDays (convertLocalTimeInUTC off startTime / msPerDay)) j
            = some (convertLocalTimeInUTC off startTime / msPerDay
              + (j : Int) * (intervalOr1 r : Int)) := by
          unfold nonYearlyCand
          rw [hf]
        refine ⟨_, hc, ?_⟩
        have h0 : (0 : Int) ≤ (j : Int) * (intervalOr1 r : Int) := by positivity
        omega
      · intro hf hdow
        unfold generateNonYearly
        dsimp only
        rw [if_pos hct, List.length_map]
        rw [← hcap]
        refine collectCount_length_eq _ _ ?_ _ _ _ hfuel
        intro j
        have hc : nonYearlyCand r (convertLocalTimeInUTC off startTime / msPerDay)
            (civilFromDays (convertLocalTimeInUTC off startTime / msPerDay)) j
            = some (convertLocalTimeInUTC off startTime / msPerDay
              + (j : Int) * (7 * (intervalOr1 r : Int))) := by
          unfold nonYearlyCand
          rw [hf, hdow]
        refine ⟨_, hc, ?_⟩
        have h0 : (0 : Int) ≤ (j : Int) * (7 * (intervalOr1 r : Int)) := by positivity
        omega

/-- Witness for the C4 amended theorem at a concrete daily rule
(count 3, interval 2, UTC). -/
theorem C4_witness :
    (Frequency.daily = Frequency.daily →
      ([1704099600000, 1704272400000, 1704445200000] : List Int).length
        = min 3 200) ∧
    (Frequency.daily = Frequency.weekly → (some [] : Option (List Nat)) = none →
      ([1704099600000, 1704272400000, 1704445200000] : List Int).length
        = min 3 200) ∧
    (Frequency.daily = Frequency.weekly ∨ Frequency.daily = Frequency.monthly →
      ([1704099600000, 1704272400000, 1704445200000] : List Int).length
        ≤ min 3 200) ∧
    (Frequency.daily = Frequency.yearly →
      ([1704099600000, 1704272400000, 1704445200000] : List Int).length
        + yearlySkippedCount 0 1704099600000
            { frequency := Frequency.daily, interval := some 2,
              count := some 3, daysOfWeek := some [],
              timezone := some "UTC" }
        = min 3 200) :=
  C4_count_exactness 0 1704099600000
    { frequency := Frequency.daily, interval := some 2, count := some 3,
      daysOfWeek := some [], timezone := some "UTC" }
    3 _ rfl (by omega) rfl

set_option maxRecDepth 200000 in
/-- C4 counterexample: a monthly rule with `count = 1`, `interval = 12`,
`dayOfMonth = 31`, anchored 2024-02-01T00:00Z UTC enumerates only Februaries,
which never have a day 31, so the output is empty rather than the claimed
`min(1, 200) = 1` occurrence. -/
theorem C4_counterexample :
    ((generateOccurrences 0 1706745600000
      { frequency := Frequency.monthly, interval := some 12, count := some 1,
        dayOfMonth := some 31, timezone := some "UTC" }).toOption.getD
          []).length < min 1 200 := by
  decide

/-! ### C6 / C7: which calendar dates yearly and monthly rules produce -/

/-- Local civil date of an emitted yearly occurrence. -/
theorem yearly_local_civil (off tod : Int) {y : Int} {m d : Nat} {t : Int}
    (hy : 1970 ≤ y) (htod0 : 0 ≤ tod) (htod1 : tod < msPerDay)
    (h : yearlyOccurrence off tod y m d = some t) :
    civilFromDays ((t + off) / msPerDay) = ⟨y, m, d⟩ := by
  rcases yearlyOccurrence_shape h with ⟨hm1, hm2, hd1, hd2, rfl⟩
  have hdiv : (dayNumber y m d * msPerDay + tod - off + off) / msPerDay
      = dayNumber y m d := by
    unfold msPerDay at htod1 ⊢
    omega
  rw [hdiv]
  exact civilFromDays_dayNumber y m d hy hm1 hm2 hd1 hd2

/-- Shape of an emitted monthly candidate under a fixed `dayOfMonth = D`. -/
theorem monthly_cand_day (r : Recurrence) (d0 : Int) (c0 : Civil) (i : Nat)
    (d : Int) (D : Nat) (hfreq : r.frequency = .monthly)
    (hw : r.weekAndDayOfMonth = none) (hD : r.dayOfMonth = some D)
    (hD0 : D ≠ 0) (hc : nonYearlyCand r d0 c0 i = some d) :
    ∃ (y : Int) (m : Nat),
      y = (12 * c0.year + (c0.month : Int) - 1
            + (i : Int) * (intervalOr1 r : Int)) / 12 ∧
      (m : Int) = (12 * c0.year + (c0.month : Int) - 1
            + (i : Int) * (intervalOr1 r : Int)) % 12 + 1 ∧
      D ≤ daysInMonth y m ∧ d = dayNumber y m D := by
  have hdm : dayOfMonthTruthy r = true := by
    unfold dayOfMonthTruthy
    rw [hD]
    simpa using hD0
  unfold nonYearlyCand at hc
  rw [hfreq] at hc
  dsimp only at hc
  rw [hw] at hc
  dsimp only at hc
  rw [if_pos hdm, hD] at hc
  simp only [Option.getD_some] at hc
  split at hc
  · obtain rfl := Option.some.inj hc
    rename_i hguard
    exact ⟨_, _, rfl, by omega, hguard.2, rfl⟩
  · exact absurd hc (by simp)

/-- C6 (amended): for every monthly rule with a fixed `dayOfMonth = D`, every
emitted occurrence falls on local calendar day `D` of a month having at least
`D` days; a month with fewer than `D` days contributes no occurrence (it is
skipped — neither clamped to its last valid day nor an error). -/
theorem C6_monthly_day_skipped (off startTime : Int) (r : Recurrence)
    (D : Nat) (out : List Int) (hfreq : r.frequency = .monthly)
    (hw : r.weekAndDayOfMonth = none) (hD : r.dayOfMonth = some D)
    (hD0 : D ≠ 0) (hanchor : 0 ≤ startTime + off)
    (h : generateOccurrences off startTime r = .ok out) :
    ∀ t ∈ out, (civilFromDays ((t + off) / msPerDay)).day = D ∧
      D ≤ daysInMonth (civilFromDays ((t + off) / msPerDay)).year
            (civilFromDays ((t + off) / msPerDay)).month := by
  unfold generateOccurrences at h
  split at h
  · exact Except.noConfusion h
  · split at h
    · rename_i hyr
      rw [hfreq] at hyr
      exact absurd hyr (by decide)
    · obtain rfl := Except.ok.inj h
      intro t ht
      rcases generateNonYearly_mem off startTime r t ht with ⟨dd, j, hcand, hlo, rfl⟩
      have hna : 0 ≤ convertLocalTimeInUTC off startTime := by
        unfold convertLocalTimeInUTC floorSec
        omega
      have hd0 : 0 ≤ convertLocalTimeInUTC off startTime / msPerDay :=
        Int.ediv_nonneg hna (by unfold msPerDay; omega)
      have hc0 := civilFromDays_valid hd0
      rcases monthly_cand_day r _ _ j dd D hfreq hw hD hD0 hcand
        with ⟨y, m, hy, hm, hdim, rfl⟩
      have h0 : (0 : Int) ≤ (j : Int) * (intervalOr1 r : Int) := by positivity
      have hy1970 : 1970 ≤ y := by omega
      have htod0 : 0 ≤ convertLocalTimeInUTC off startTime % msPerDay :=
        tod_nonneg _
      have htod1 : convertLocalTimeInUTC off startTime % msPerDay < msPerDay :=
        tod_lt _
      have hdiv : (dayNumber y m D * msPerDay
            + convertLocalTimeInUTC off startTime % msPerDay - off + off)
            / msPerDay = dayNumber y m D := by
        unfold msPerDay at htod0 htod1 ⊢
        omega
      rw [hdiv, civilFromDays_dayNumber y m D hy1970 (by omega) (by omega)
        (by omega) hdim]
      exact ⟨rfl, hdim⟩

/-- Witness for the C6 amended theorem: the concrete dayOfMonth = 31 rule of
the counterexample, at its March output. -/
theorem C6_witness :
    (civilFromDays (((1680220800000 : Int) + 0) / msPerDay)).day = 31 ∧
    31 ≤ daysInMonth (civilFromDays (((1680220800000 : Int) + 0) / msPerDay)).year
          (civilFromDays (((1680220800000 : Int) + 0) / msPerDay)).month :=
  C6_monthly_day_skipped 0 1675123200000
    { frequency := Frequency.monthly, dayOfMonth := some 31, count := some 3,
      timezone := some "UTC" }
    31 _ rfl rfl rfl (by omega) (by omega) rfl
    1680220800000 (by decide)

/-- C6 counterexample: monthly rule, `dayOfMonth = 31`, anchored
2023-01-31T00:00Z (UTC), `count = 3`: the output is Jan 31, Mar 31 and
May 31 2023 — February is skipped entirely rather than clamped to
Feb 28 2023 (1677542400000) as the claim states. -/
theorem C6_counterexample :
    generateOccurrences 0 1675123200000
      { frequency := Frequency.monthly, dayOfMonth := some 31, count := some 3,
        timezone := some "UTC" }
      = .ok [1675123200000, 1680220800000, 1685491200000] ∧
    (1677542400000 : Int)
      ∉ ([1675123200000, 1680220800000, 1685491200000] : List Int) :=
  ⟨rfl, by decide⟩

/-- C7 (amended): every yearly occurrence falls on the anchor's local
month/day, and that date is valid in the occurrence's year (invalid years are
skipped, never substituted by a nearby day); with `count` set, the enumerated
years are `anchorYear + i` for consecutive slots `i < min(count, 200)` — the
year step ignores `interval` — while without `count` (endDate or
single-occurrence case) the years are `anchorYear + j·interval`. -/
theorem C7_yearly_stepping (off startTime : Int) (r : Recurrence)
    (out : List Int) (hfreq : r.frequency = .yearly)
    (hanchor : 0 ≤ startTime + off)
    (h : generateOccurrences off startTime r = .ok out) :
    (∀ t ∈ out,
      (civilFromDays ((t + off) / msPerDay)).month
        = (civilFromDays ((startTime + off) / msPerDay)).month ∧
      (civilFromDays ((t + off) / msPerDay)).day
        = (civilFromDays ((startTime + off) / msPerDay)).day ∧
      (civilFromDays ((t + off) / msPerDay)).day
        ≤ daysInMonth (civilFromDays ((t + off) / msPerDay)).year
            (civilFromDays ((t + off) / msPerDay)).month) ∧
    (countTruthy r = true → ∀ t ∈ out, ∃ i : Nat, i < yearlyCountLimit r ∧
      (civilFromDays ((t + off) / msPerDay)).year
        = (civilFromDays ((startTime + off) / msPerDay)).year + (i : Int)) ∧
    (countTruthy r = false → ∀ t ∈ out, ∃ j : Nat,
      (civilFromDays ((t + off) / msPerDay)).year
        = (civilFromDays ((startTime + off) / msPerDay)).year
          + (j : Int) * (intervalOr1 r : Int)) := by
  unfold generateOccurrences at h
  by_cases htz : tzTruthy r = true
  · rw [if_neg (by simp [htz]), if_pos hfreq] at h
    obtain rfl := Except.ok.inj h
    have hd0 : 0 ≤ (startTime + off) / msPerDay :=
      Int.ediv_nonneg hanchor (by unfold msPerDay; omega)
    have hc0 := civilFromDays_valid hd0
    have htod0 : 0 ≤ (startTime + off) % msPerDay := tod_nonneg _
    have htod1 : (startTime + off) % msPerDay < msPerDay := tod_lt _
    refine ⟨?_, ?_, ?_⟩
    · -- anchor month/day preserved, and valid in the occurrence's year
      intro t ht
      rcases generateYearly_mem off startTime r t ht with ⟨y, hy, hocc⟩
      have hy1970 : (1970 : Int) ≤ y := by
        have := hc0.1
        omega
      have hshape := yearlyOccurrence_shape hocc
      rw [yearly_local_civil off ((startTime + off) % msPerDay) hy1970 htod0
        htod1 hocc]
      exact ⟨rfl, rfl, hshape.2.2.2.1⟩
    · intro hcnt t ht
      unfold generateYearlyOccurrences at ht
      dsimp only at ht
      rw [if_pos hcnt] at ht
      rcases List.mem_filterMap.mp ht with ⟨i, hir, hi⟩
      refine ⟨i, List.mem_range.mp hir, ?_⟩
      have hy' : (1970 : Int)
          ≤ (civilFromDays ((startTime + off) / msPerDay)).year + (i : Int) := by
        have := hc0.1
        omega
      rw [yearly_local_civil off ((startTime + off) % msPerDay) hy' htod0 htod1 hi]
    · intro hcnt t ht
      unfold generateYearlyOccurrences at ht
      dsimp only at ht
      rw [if_neg (by simp [hcnt])] at ht
      split at ht
      · rcases yearlyEndLoop_mem _ _ _ _ _ _ _ _ _ _ ht with ⟨j, hj⟩
        refine ⟨j, ?_⟩
        have h0 : (0 : Int) ≤ (j : Int) * ((intervalOr1 r : Nat) : Int) := by
          positivity
        have hy' : (1970 : Int)
            ≤ (civilFromDays ((startTime + off) / msPerDay)).year
              + (j : Int) * ((intervalOr1 r : Nat) : Int) := by
          have := hc0.1
          omega
        rw [yearly_local_civil off ((startTime + off) % msPerDay) hy' htod0
          htod1 hj]
      · rcases ho : yearlyOccurrence off ((startTime + off) % msPerDay)
            (civilFromDays ((startTime + off) / msPerDay)).year
            (civilFromDays ((startTime + off) / msPerDay)).month
            (civilFromDays ((startTime + off) / msPerDay)).day with _ | v
        · rw [ho] at ht
          simp at ht
        · rw [ho] at ht
          simp only [Option.toList_some, List.mem_singleton] at ht
          subst ht
          refine ⟨0, ?_⟩
          have hy' : (1970 : Int)
              ≤ (civilFromDays ((startTime + off) / msPerDay)).year := hc0.1
          rw [yearly_local_civil off ((startTime + off) % msPerDay) hy' htod0
            htod1 ho]
          simp
  · rw [if_pos (by simp [htz])] at h
    exact Except.noConfusion h

/-- The concrete yearly rule of the C7 counterexample: interval 2, count 3,
zone UTC. -/
def yearlyInterval2Rule : Recurrence :=
  { frequency := Frequency.yearly, interval := some 2, count := some 3,
    timezone := some "UTC" }

/-- Witness for the C7 amended theorem at the concrete interval-2 count-3
yearly rule. -/
theorem C7_witness :
    (∀ t ∈ ([1710460800000, 1741996800000, 1773532800000] : List Int),
      (civilFromDays ((t + 0) / msPerDay)).month
        = (civilFromDays (((1710460800000 : Int) + 0) / msPerDay)).month ∧
      (civilFromDays ((t + 0) / msPerDay)).day
        = (civilFromDays (((1710460800000 : Int) + 0) / msPerDay)).day ∧
      (civilFromDays ((t + 0) / msPerDay)).day
        ≤ daysInMonth (civilFromDays ((t + 0) / msPerDay)).year
            (civilFromDays ((t + 0) / msPerDay)).month) ∧
    (countTruthy yearlyInterval2Rule = true →
      ∀ t ∈ ([1710460800000, 1741996800000, 1773532800000] : List Int),
        ∃ i : Nat, i < yearlyCountLimit yearlyInterval2Rule ∧
          (civilFromDays ((t + 0) / msPerDay)).year
            = (civilFromDays (((1710460800000 : Int) + 0) / msPerDay)).year
              + (i : Int)) ∧
    (countTruthy yearlyInterval2Rule = false →
      ∀ t ∈ ([1710460800000, 1741996800000, 1773532800000] : List Int),
        ∃ j : Nat,
          (civilFromDays ((t + 0) / msPerDay)).year
            = (civilFromDays (((1710460800000 : Int) + 0) / msPerDay)).year
              + (j : Int) * (intervalOr1 yearlyInterval2Rule : Int)) :=
  C7_yearly_stepping 0 1710460800000 yearlyInterval2Rule _ rfl (by omega) rfl

/-- C7 counterexample: with `interval = 2`, `count = 3`, anchor
2024-03-15T00:00Z UTC, the occurrences fall in 2024, 2025 and 2026 —
consecutive years — not 2024/2026/2028 as the claim (occurrences `interval`
years apart in the count-terminated case) requires. -/
theorem C7_counterexample :
    generateOccurrences 0 1710460800000 yearlyInterval2Rule
      = .ok [1710460800000, 1741996800000, 1773532800000] ∧
    (civilFromDays ((1741996800000 : Int) / 86400000)).year
      = (civilFromDays ((1710460800000 : Int) / 86400000)).year + 1 :=
  ⟨rfl, by decide⟩

/-! ### `compareTwoRecurrence` (src/app/utils/recurrenceUtils.js:176-249)

JS note: `[...arr].sort()` sorts numbers lexicographically as strings, but any
total order makes two sorted lists equal exactly when the multisets agree, so
the numeric sort below is an equivalent model of the comparison. -/

/-- `compareArrays` (src lines 208-234): both absent compare equal, one absent
compares unequal, otherwise length check followed by elementwise comparison of
sorted copies. -/
def compareArrays : Option (List Nat) → Option (List Nat) → Bool
  | none, none => true
  | none, some _ => false
  | some _, none => false
  | some a, some b =>
    a.length == b.length && a.mergeSort == b.mergeSort

/-- `compareWeekAndDayOfMonth` (src lines 236-249). -/
def compareWeekAndDayOfMonth :
    Option WeekAndDayOfMonth → Option WeekAndDayOfMonth → Bool
  | none, none => true
  | none, some _ => false
  | some _, none => false
  | some o1, some o2 =>
    o1.dayOfWeek == o2.dayOfWeek && o1.weekOfMonth == o2.weekOfMonth

/-- `compareTwoRecurrence` (src lines 182-206): primitive fields, then
`daysOfWeek`, then `weekAndDayOfMonth`. -/
def compareTwoRecurrence (recurrence1 recurrence2 : Recurrence) : Bool :=
  recurrence1.frequency == recurrence2.frequency
    && recurrence1.interval == recurrence2.interval
    && recurrence1.endDate == recurrence2.endDate
    && recurrence1.count == recurrence2.count
    && recurrence1.dayOfMonth == recurrence2.dayOfMonth
    && recurrence1.timezone == recurrence2.timezone
    && compareArrays recurrence1.daysOfWeek recurrence2.daysOfWeek
    && compareWeekAndDayOfMonth recurrence1.weekAndDayOfMonth
        recurrence2.weekAndDayOfMonth

theorem compareArrays_iff (o1 o2 : Option (List Nat)) :
    compareArrays o1 o2 = true ↔
      (match o1, o2 with
       | none, none => True
       | some a, some b => a.Perm b
       | _, _ => False) := by
  rcases o1 with _ | a <;> rcases o2 with _ | b <;> simp [compareArrays]
  constructor
  · rintro ⟨hlen, hsort⟩
    exact ((a.mergeSort_perm _).symm.trans (hsort ▸ b.mergeSort_perm _))
  · intro hperm
    refine ⟨hperm.length_eq, ?_⟩
    exact List.eq_of_perm_of_sorted
      ((a.mergeSort_perm _).trans (hperm.trans (b.mergeSort_perm _).symm))
      (List.sorted_mergeSort' a) (List.sorted_mergeSort' b)

/-- C8 (amended): `compareTwoRecurrence` returns true iff the six scalar
fields agree exactly, the `daysOfWeek` lists agree as multisets
(order-insensitive but multiplicity-sensitive — equality of the underlying
sets does not suffice, see the counterexample), and the `weekAndDayOfMonth`
descriptors agree fieldwise or are both absent. -/
theorem C8_compare_iff (r1 r2 : Recurrence) :
    compareTwoRecurrence r1 r2 = true ↔
      (r1.frequency = r2.frequency ∧ r1.interval = r2.interval ∧
       r1.endDate = r2.endDate ∧ r1.count = r2.count ∧
       r1.dayOfMonth = r2.dayOfMonth ∧ r1.timezone = r2.timezone ∧
       (match r1.daysOfWeek, r2.daysOfWeek with
        | none, none => True
        | some a, some b => a.Perm b
        | _, _ => False) ∧
       (match r1.weekAndDayOfMonth, r2.weekAndDayOfMonth with
        | none, none => True
        | some o1, some o2 => o1 = o2
        | _, _ => False)) := by
  unfold compareTwoRecurrence
  rw [← compareArrays_iff r1.daysOfWeek r2.daysOfWeek]
  have hw : compareWeekAndDayOfMonth r1.weekAndDayOfMonth r2.weekAndDayOfMonth
      = true ↔
      (match r1.weekAndDayOfMonth, r2.weekAndDayOfMonth with
       | none, none => True
       | some o1, some o2 => o1 = o2
       | _, _ => False) := by
    rcases r1.weekAndDayOfMonth with _ | o1 <;>
      rcases r2.weekAndDayOfMonth with _ | o2 <;>
        simp [compareWeekAndDayOfMonth]
    constructor
    · rintro ⟨h1, h2⟩
      cases o1; cases o2
      simp_all
    · rintro rfl
      exact ⟨rfl, rfl⟩
  rw [← hw]
  simp [Bool.and_assoc]

/-- C8 counterexample: two weekly rules whose `daysOfWeek` lists denote the
same set `{1}` — `[1]` versus `[1, 1]` — with every other field equal.  The
claim (set comparison) says they are equal; `compareTwoRecurrence` returns
false because the length check fails. -/
theorem C8_counterexample :
    compareTwoRecurrence
      { frequency := Frequency.weekly, daysOfWeek := some [1],
        timezone := some "UTC" }
      { frequency := Frequency.weekly, daysOfWeek := some [1, 1],
        timezone := some "UTC" }
      = false ∧
    ([1] : List Nat).toFinset = ([1, 1] : List Nat).toFinset :=
  ⟨rfl, by decide⟩

/-! ### Series-mutation engine (src/app/controllers/taskController.js)

The document store is modelled as in-memory lists plus a fresh-id counter
(Mongoose id generation); `u` is the principal resolved by the auth
middleware.  Only the fields the mutation logic reads or writes are modelled;
the Series' purely descriptive fields (color, goal, tags, …) are omitted.
Schema clock defaults (`Date.now()`) are modelled as `0`, and the
`undefined - x = NaN` duration arising from an absent template `endTime` is
modelled as duration `0`; neither is load-bearing for any claim below. -/

structure TaskRec where
  id : Nat
  userId : Nat
  title : String := ""
  description : String := ""
  status : String := "todo"
  priority : Int := 1
  startTime : Int := 0
  endTime : Int := 0
  dueTime : Option Int := none
  note : String := ""
  recurrence : Option Recurrence := none
  seriesId : Option Nat := none
  isRecurring : Bool := false
deriving Repr, DecidableEq

structure SeriesRec where
  id : Nat
  userId : Nat
  title : String := ""
  recurrence : Recurrence
  firstOccurrenceAt : Option Int := none
  lastOccurrenceAt : Option Int := none
deriving Repr, DecidableEq

structure DB where
  tasks : List TaskRec := []
  series : List SeriesRec := []
  nextId : Nat := 0
deriving Repr, DecidableEq

/-- A request body (`{ ...req.body }` minus the mode): absent fields are
`none`. -/
structure Payload where
  title : Option String := none
  description : Option String := none
  status : Option String := none
  priority : Option Int := none
  startTime : Option Int := none
  endTime : Option Int := none
  dueTime : Option Int := none
  note : Option String := none
  recurrence : Option Recurrence := none
  isRecurring : Bool := false
deriving Repr, DecidableEq

inductive OpResult
  | ok
  | err
deriving Repr, DecidableEq

inductive EditMode
  | single
  | all
  | following
deriving Repr, DecidableEq

def findTask (db : DB) (u id : Nat) : Option TaskRec :=
  db.tasks.find? (fun t => t.id == id && t.userId == u)

def findSeries (db : DB) (sid : Nat) : Option SeriesRec :=
  db.series.find? (fun sr => sr.id == sid)

def updateSeries (db : DB) (sid : Nat) (f : SeriesRec → SeriesRec) : DB :=
  { db with series := db.series.map (fun sr => if sr.id == sid then f sr else sr) }

def deleteSeries (db : DB) (sid : Nat) : DB :=
  { db with series := db.series.filter (fun sr => sr.id != sid) }

/-- `Math.min(...xs)` / first element of an ascending sort (0 on the empty
list, which every caller guards against). -/
def minOfList : List Int → Int
  | [] => 0
  | x :: xs => xs.foldl min x

def maxOfList : List Int → Int
  | [] => 0
  | x :: xs => xs.foldl max x

/-- `$set`-style field overwrite of a task by the payload's present fields
(`findByIdAndUpdate` / `updateMany`). -/
def applyPayload (t : TaskRec) (p : Payload) : TaskRec :=
  { t with
    title := p.title.getD t.title
    description := p.description.getD t.description
    status := p.status.getD t.status
    priority := p.priority.getD t.priority
    startTime := p.startTime.getD t.startTime
    endTime := p.endTime.getD t.endTime
    dueTime := match p.dueTime with | some v => some v | none => t.dueTime
    note := p.note.getD t.note
    recurrence := match p.recurrence with | some v => some v | none => t.recurrence }

/-- Drop the scheduling fields from a bulk payload (src lines 598-603 and
742-748: `recurrence`, `startTime`, `endTime`, `dueTime`, `completeTime`). -/
def stripScheduling (p : Payload) : Payload :=
  { p with
    recurrence := none
    startTime := none
    endTime := none
    dueTime := none }

/-- `createTasksFromSeries` (src lines 725-740): one task per occurrence,
sharing the template, with `endTime` shifted by the template's duration
(`endTime - startTime`); `insertMany` assigns the consecutive ids
`firstId, firstId+1, …`. -/
def createTasksFromSeries (sid : Nat) (taskTemplate : TaskRec) :
    List Int → Nat → List TaskRec
  | [], _ => []
  | o :: rest, firstId =>
    { taskTemplate with
      id := firstId
      startTime := o
      endTime := o + (taskTemplate.endTime - taskTemplate.startTime)
      seriesId := some sid
      isRecurring := true }
      :: createTasksFromSeries sid taskTemplate rest (firstId + 1)

/-- `DateTime.fromObject` combining the local date fields of `dateMs` with the
local time fields of `timeMs` (src lines 533-548 and 622-637), fixed-offset
zone `off`. -/
def mergeDateTime (off dateMs timeMs : Int) : Int :=
  ((dateMs + off) / msPerDay) * msPerDay + (timeMs + off) % msPerDay - off

/-- `createTask` (src lines 69-164). -/
def createTask (u : Nat) (p : Payload) (off : Int) (db : DB) : OpResult × DB :=
  if ¬ p.isRecurring ∨ p.recurrence = none then
    let task : TaskRec :=
      { id := db.nextId, userId := u,
        title := p.title.getD "", description := p.description.getD "",
        status := p.status.getD "todo", priority := p.priority.getD 1,
        startTime := p.startTime.getD 0, endTime := p.endTime.getD 0,
        dueTime := p.dueTime, note := p.note.getD "",
        recurrence := p.recurrence, seriesId := none, isRecurring := false }
    (.ok, { db with tasks := db.tasks ++ [task], nextId := db.nextId + 1 })
  else
    match p.recurrence with
    | none => (.err, db)
    | some recurrence =>
      let sid := db.nextId
      let series : SeriesRec :=
        { id := sid, userId := u, title := p.title.getD "for recurring",
          recurrence := recurrence }
      let db1 : DB :=
        { db with
          series := db.series ++ [series]
          nextId := db.nextId + 1 }
      match p.startTime with
      | none => (.err, db1)
      | some startTime =>
        match generateOccurrences off startTime recurrence with
        | .error _ => (.err, db1)
        | .ok occurrences =>
          let taskTemplate : TaskRec :=
            { id := 0, userId := u,
              title := p.title.getD "", description := p.description.getD "",
              status := p.status.getD "todo", priority := p.priority.getD 1,
              startTime := startTime, endTime := p.endTime.getD startTime,
              dueTime := p.dueTime, note := p.note.getD "",
              recurrence := none, seriesId := none, isRecurring := false }
          let newTasks := createTasksFromSeries sid taskTemplate occurrences db1.nextId
          let db2 : DB :=
            { db1 with
              tasks := db1.tasks ++ newTasks
              nextId := db1.nextId + occurrences.length }
          if occurrences.isEmpty then (.ok, db2)
          else
            (.ok, updateSeries db2 sid (fun sr =>
              { sr with
                firstOccurrenceAt := some (minOfList occurrences)
                lastOccurrenceAt := some (maxOfList occurrences) }))

/-- `deleteTaskById` (src lines 223-318). -/
def deleteTaskById (u id : Nat) (deleteMode : EditMode) (db : DB) :
    OpResult × DB :=
  match findTask db u id with
  | none => (.err, db)
  | some task =>
    match deleteMode with
    | .single =>
      (.ok, { db with tasks := db.tasks.filter (fun t => t.id != task.id) })
    | .all =>
      match task.seriesId with
      | none =>
        (.ok, { db with tasks := db.tasks.filter (fun t => t.id != task.id) })
      | some sid =>
        let db1 : DB :=
          { db with
            tasks := db.tasks.filter
              (fun t => ¬ (t.seriesId == some sid && t.userId == u)) }
        (.ok, deleteSeries db1 sid)
    | .following =>
      match task.seriesId with
      | none =>
        (.ok, { db with tasks := db.tasks.filter (fun t => t.id != task.id) })
      | some sid =>
        let db1 : DB :=
          { db with
            tasks := db.tasks.filter
              (fun t => ¬ (t.seriesId == some sid
                && decide (task.startTime ≤ t.startTime) && t.userId == u)) }
        let remaining := db1.tasks.filter
          (fun t => t.seriesId == some sid && t.userId == u)
        if remaining.isEmpty then (.ok, deleteSeries db1 sid)
        else
          (.ok, updateSeries db1 sid (fun sr =>
            { sr with
              lastOccurrenceAt :=
                some (maxOfList (remaining.map (fun t => t.startTime))) }))

/-- `bulkUpdateOtherFieldsInTasksInSeries` (src lines 742-756). -/
def bulkUpdateOtherFieldsInTasksInSeries (u sid : Nat) (p : Payload) (db : DB) :
    DB :=
  { db with
    tasks := db.tasks.map (fun t =>
      if t.userId == u && t.seriesId == some sid then
        applyPayload t (stripScheduling p)
      else t) }

/-- `recurrenceChanged` test of the update modes (src lines 505, 593). -/
def recurrenceChanged (p : Payload) (series : SeriesRec) : Bool :=
  match p.recurrence with
  | some pr => ! compareTwoRecurrence pr series.recurrence
  | none => false

/-- `timeChanged` test of the update modes (src lines 506-507, 594-595):
`(payload.startTime && payload.startTime !== task.startTime) ||
(payload.endTime && payload.endTime !== task.endTime)` — a missing or zero
payload time is falsy and reports no change. -/
def timeChanged (p : Payload) (task : TaskRec) : Bool :=
  (match p.startTime with
   | some st => st != 0 && st != task.startTime
   | none => false)
  || (match p.endTime with
      | some et => et != 0 && et != task.endTime
      | none => false)

/-- Anchor for an `all`-mode regeneration (src lines 511-515):
`series.firstOccurrenceAt`, else the earliest task of the series, else the
target's own start. -/
def firstStartOf (db : DB) (u sid : Nat) (series : SeriesRec) (task : TaskRec) :
    Int :=
  match series.firstOccurrenceAt with
  | some fs => if fs = 0 then firstTaskFallback else fs
  | none => firstTaskFallback
where
  firstTaskFallback :=
    match (db.tasks.filter (fun t => t.seriesId == some sid && t.userId == u)).map
        (fun t => t.startTime) with
    | [] => task.startTime
    | starts => minOfList starts

/-- Start time for a regenerated/split series: date component from `dateMs`,
time-of-day from `payload.startTime` when both a timezone and a payload start
are truthy — `if (!tz || !payload.startTime) return …;` treats a zero payload
start as absent (src lines 533-548 and 622-637). -/
def alignedStart (off : Int) (newRecurrence : Recurrence) (p : Payload)
    (dateMs : Int) : Int :=
  if tzTruthy newRecurrence then
    match p.startTime with
    | some pst => if pst = 0 then dateMs else mergeDateTime off dateMs pst
    | none => dateMs
  else dateMs

/-- Base duration of an `all`-mode regeneration (src line 552):
`(payload.endTime && payload.startTime) ? payload.endTime - payload.startTime
: 0` — a missing or zero payload time is falsy. -/
def allBaseDuration (p : Payload) : Int :=
  match p.endTime, p.startTime with
  | some et, some st => if et ≠ 0 ∧ st ≠ 0 then et - st else 0
  | _, _ => 0

/-- Base duration of a `following`-mode split (src lines 645-647): payload
times when both truthy, else the target's times when both truthy, else 0. -/
def followBaseDuration (p : Payload) (task : TaskRec) : Int :=
  match p.endTime, p.startTime with
  | some et, some st =>
    if et ≠ 0 ∧ st ≠ 0 then et - st
    else if task.endTime ≠ 0 ∧ task.startTime ≠ 0 then
      task.endTime - task.startTime
    else 0
  | _, _ =>
    if task.endTime ≠ 0 ∧ task.startTime ≠ 0 then
      task.endTime - task.startTime
    else 0

/-- `updateTaskById` (src lines 362-722). -/
def updateTaskById (u id : Nat) (updateMode : EditMode) (p : Payload)
    (off : Int) (db : DB) : OpResult × DB :=
  match findTask db u id with
  | none => (.err, db)
  | some task =>
    match task.seriesId with
    | none =>
      -- CASE 1: non-recurring target
      match p.recurrence with
      | some recurrence =>
        -- promotion to a recurring series (src lines 388-463)
        let sid := db.nextId
        let newSeries : SeriesRec :=
          { id := sid, userId := u, title := p.title.getD task.title,
            recurrence := recurrence }
        let db1 : DB :=
          { db with
            series := db.series ++ [newSeries]
            nextId := db.nextId + 1 }
        match generateOccurrences off (p.startTime.getD task.startTime)
            recurrence with
        | .error _ => (.err, db1)
        | .ok occurrences =>
          let taskTemplate : TaskRec :=
            { id := 0, userId := u
              title := p.title.getD task.title
              description := p.description.getD task.description
              status := p.status.getD task.status
              priority := p.priority.getD task.priority
              startTime := p.startTime.getD task.startTime
              endTime := p.endTime.getD (p.startTime.getD task.startTime)
              dueTime := p.dueTime
              note := p.note.getD task.note
              recurrence := none, seriesId := none, isRecurring := false }
          let db2 : DB :=
            { db1 with tasks := db1.tasks.filter (fun t => t.id != task.id) }
          let newTasks :=
            createTasksFromSeries sid taskTemplate occurrences db2.nextId
          let db3 : DB :=
            { db2 with
              tasks := db2.tasks ++ newTasks
              nextId := db2.nextId + occurrences.length }
          if occurrences.isEmpty then (.ok, db3)
          else
            (.ok, updateSeries db3 sid (fun sr =>
              { sr with
                firstOccurrenceAt := some (minOfList occurrences)
                lastOccurrenceAt := some (maxOfList occurrences) }))
      | none =>
        -- plain single-task update (src lines 464-476)
        (.ok, { db with
          tasks := db.tasks.map (fun t =>
            if t.id == task.id then applyPayload t p else t) })
    | some sid =>
      -- CASE 2: recurring target
      match findSeries db sid with
      | none => (.err, db)
      | some series =>
        match updateMode with
        | .single =>
          -- src lines 486-502: drop `recurrence` from the update data
          (.ok, { db with
            tasks := db.tasks.map (fun t =>
              if t.id == task.id then
                applyPayload t { p with recurrence := none }
              else t) })
        | .all =>
          if recurrenceChanged p series || timeChanged p task then
            -- full regeneration (src lines 509-585)
            let firstStart := firstStartOf db u sid series task
            let newRecurrence := p.recurrence.getD series.recurrence
            let sid2 := db.nextId
            let newSeries : SeriesRec :=
              { id := sid2, userId := u, title := p.title.getD series.title,
                recurrence := newRecurrence }
            let db1 : DB :=
              { db with
                series := db.series ++ [newSeries]
                nextId := db.nextId + 1 }
            match generateOccurrences off
                (alignedStart off newRecurrence p firstStart) newRecurrence with
            | .error _ => (.err, db1)
            | .ok occurrences =>
              let baseDuration := allBaseDuration p
              let taskTemplate : TaskRec :=
                { id := 0, userId := u
                  title := p.title.getD series.title
                  description := p.description.getD ""
                  status := p.status.getD "todo"
                  priority := p.priority.getD 1
                  startTime := firstStart
                  endTime := firstStart + baseDuration
                  dueTime := none
                  note := p.note.getD ""
                  recurrence := none, seriesId := none, isRecurring := false }
              let newTasks :=
                createTasksFromSeries sid2 taskTemplate occurrences db1.nextId
              let db2 : DB :=
                { db1 with
                  tasks := db1.tasks ++ newTasks
                  nextId := db1.nextId + occurrences.length }
              let db3 :=
                if occurrences.isEmpty then db2
                else updateSeries db2 sid2 (fun sr =>
                  { sr with
                    firstOccurrenceAt := some (minOfList occurrences)
                    lastOccurrenceAt := some (maxOfList occurrences) })
              let db4 : DB :=
                { db3 with
                  tasks := db3.tasks.filter
                    (fun t => ¬ (t.seriesId == some sid && t.userId == u)) }
              (.ok, deleteSeries db4 sid)
          else
            (.ok, bulkUpdateOtherFieldsInTasksInSeries u sid p db)
        | .following =>
          if recurrenceChanged p series || timeChanged p task then
            -- split (src lines 605-705)
            let newRecurrence := p.recurrence.getD series.recurrence
            let sid2 := db.nextId
            let newSeries : SeriesRec :=
              { id := sid2, userId := u, title := p.title.getD series.title,
                recurrence := newRecurrence }
            let db1 : DB :=
              { db with
                series := db.series ++ [newSeries]
                nextId := db.nextId + 1 }
            let startForNew := alignedStart off newRecurrence p task.startTime
            let baseDuration := followBaseDuration p task
            let taskTemplate : TaskRec :=
              { id := 0, userId := u
                title := p.title.getD series.title
                description := p.description.getD task.description
                status := p.status.getD task.status
                priority := p.priority.getD task.priority
                startTime := startForNew
                endTime := startForNew + baseDuration
                dueTime := none
                note := p.note.getD task.note
                recurrence := none, seriesId := none, isRecurring := false }
            match generateOccurrences off startForNew newRecurrence with
            | .error _ => (.err, db1)
            | .ok occurrences =>
              let db2 : DB :=
                { db1 with
                  tasks := db1.tasks.filter
                    (fun t => ¬ (t.seriesId == some sid && t.userId == u
                      && decide (task.startTime ≤ t.startTime))) }
              let newTasks :=
                createTasksFromSeries sid2 taskTemplate occurrences db2.nextId
              let db3 : DB :=
                { db2 with
                  tasks := db2.tasks ++ newTasks
                  nextId := db2.nextId + occurrences.length }
              let db4 :=
                if occurrences.isEmpty then db3
                else updateSeries db3 sid2 (fun sr =>
                  { sr with
                    firstOccurrenceAt := some (minOfList occurrences)
                    lastOccurrenceAt := some (maxOfList occurrences) })
              let remainingOld := db4.tasks.filter
                (fun t => t.seriesId == some sid && t.userId == u)
              let db5 :=
                if remainingOld.isEmpty then deleteSeries db4 sid
                else updateSeries db4 sid (fun sr =>
                  { sr with
                    firstOccurrenceAt :=
                      some (minOfList (remainingOld.map (fun t => t.startTime)))
                    lastOccurrenceAt :=
                      some (maxOfList (remainingOld.map (fun t => t.startTime))) })
              let db6 : DB :=
                { db5 with
                  tasks := db5.tasks.map (fun t =>
                    if t.userId == u && (t.seriesId == some sid2
                        || (t.seriesId == some sid
                          && decide (task.startTime ≤ t.startTime))) then
                      applyPayload t (stripScheduling p)
                    else t) }
              (.ok, db6)
          else
            (.ok, { db with
              tasks := db.tasks.map (fun t =>
                if t.userId == u && t.seriesId == some sid
                    && decide (task.startTime ≤ t.startTime) then
                  applyPayload t (stripScheduling p)
                else t) })

/-! ### C10: single-mode update on a series member discards `recurrence` -/

/-- C10: a single-mode update of a Task that belongs to a Series silently
discards a recurrence object present in the payload: the operation only
rewrites the target Task (no Task is created or deleted and the Series
collection is untouched, so no regeneration or split occurs), the target's
stored recurrence is not set from the payload, and the other payload fields
are applied to the target. -/
theorem C10_single_update_discards_recurrence (u id : Nat) (p : Payload)
    (off : Int) (db : DB) (task : TaskRec) (sid : Nat) (series : SeriesRec)
    (hfind : findTask db u id = some task)
    (hsid : task.seriesId = some sid)
    (hser : findSeries db sid = some series) :
    updateTaskById u id .single p off db
      = (.ok, { db with
          tasks := db.tasks.map (fun t =>
            if t.id == task.id then
              applyPayload t { p with recurrence := none }
            else t) })
    ∧ (applyPayload task { p with recurrence := none }).recurrence
        = task.recurrence
    ∧ (applyPayload task { p with recurrence := none }).title
        = p.title.getD task.title
    ∧ (applyPayload task { p with recurrence := none }).startTime
        = p.startTime.getD task.startTime := by
  refine ⟨?_, rfl, rfl, rfl⟩
  unfold updateTaskById
  rw [hfind]
  dsimp only
  rw [hsid]
  dsimp only
  rw [hser]

/-- Concrete two-task series state for the C10 witness. -/
def c10rec : Recurrence :=
  { frequency := Frequency.daily, count := some 2, timezone := some "UTC" }

def c10task : TaskRec :=
  { id := 1
    userId := 7
    startTime := 1000
    seriesId := some 0
    isRecurring := true }

def c10series : SeriesRec :=
  { id := 0, userId := 7, recurrence := c10rec }

def c10db : DB :=
  { tasks := [c10task,
              { id := 2
                userId := 7
                startTime := 2000
                seriesId := some 0
                isRecurring := true }]
    series := [c10series]
    nextId := 3 }

def c10payload : Payload :=
  { title := some "renamed"
    recurrence := some { frequency := Frequency.weekly
                         timezone := some "UTC" } }

/-- Witness for C10 at the concrete state. -/
theorem C10_witness :
    updateTaskById 7 1 .single c10payload 0 c10db
      = (.ok, { c10db with
          tasks := c10db.tasks.map (fun t =>
            if t.id == c10task.id then
              applyPayload t { c10payload with recurrence := none }
            else t) })
    ∧ (applyPayload c10task { c10payload with recurrence := none }).recurrence
        = c10task.recurrence
    ∧ (applyPayload c10task { c10payload with recurrence := none }).title
        = c10payload.title.getD c10task.title
    ∧ (applyPayload c10task { c10payload with recurrence := none }).startTime
        = c10payload.startTime.getD c10task.startTime :=
  C10_single_update_discards_recurrence 7 1 c10payload 0 c10db c10task 0
    c10series rfl rfl rfl

/-! ### C2: the series occurrence-bound cache -/

/-- Start times of the tasks in `l` referencing series `sid`. -/
def startsOf (l : List TaskRec) (sid : Nat) : List Int :=
  (l.filter (fun t => t.seriesId == some sid)).map (fun t => t.startTime)

/-- Start times of the tasks currently referencing series `sid`. -/
def memberStarts (db : DB) (sid : Nat) : List Int :=
  startsOf db.tasks sid

/-- The claimed invariant: every existing Series with at least one member
Task caches the minimum member start in `firstOccurrenceAt` and the maximum
in `lastOccurrenceAt`. -/
def boundsOk (db : DB) : Prop :=
  ∀ sr ∈ db.series, memberStarts db sr.id ≠ [] →
    sr.firstOccurrenceAt = some (minOfList (memberStarts db sr.id)) ∧
    sr.lastOccurrenceAt = some (maxOfList (memberStarts db sr.id))

instance boundsOk_decidable (db : DB) : Decidable (boundsOk db) := by
  unfold boundsOk
  exact List.decidableBAll _ db.series

/-- Well-formedness of a store: ids below the fresh counter, unique task ids,
and every series member owned by the acting user. -/
structure WF (u : Nat) (db : DB) : Prop where
  series_lt : ∀ sr ∈ db.series, sr.id < db.nextId
  task_lt : ∀ t ∈ db.tasks, ∀ sid, t.seriesId = some sid → sid < db.nextId
  task_ids_nodup : (db.tasks.map (fun t => t.id)).Nodup
  member_user : ∀ t ∈ db.tasks, t.seriesId ≠ none → t.userId = u

theorem foldl_min_le_init : ∀ (xs : List Int) (a : Int), xs.foldl min a ≤ a := by
  intro xs
  induction xs with
  | nil => intro a; exact Int.le_refl a
  | cons x xs ih =>
    intro a
    exact Int.le_trans (ih (min a x)) (Int.min_le_left a x)

theorem foldl_min_le_mem : ∀ (xs : List Int) (a : Int), ∀ x ∈ xs,
    xs.foldl min a ≤ x := by
  intro xs
  induction xs with
  | nil => intro a x hx; simp at hx
  | cons y xs ih =>
    intro a x hx
    rcases List.mem_cons.mp hx with rfl | hx
    · exact Int.le_trans (foldl_min_le_init xs (min a x)) (Int.min_le_right a x)
    · exact ih (min a y) x hx

theorem foldl_min_mem : ∀ (xs : List Int) (a : Int),
    xs.foldl min a = a ∨ xs.foldl min a ∈ xs := by
  intro xs
  induction xs with
  | nil => intro a; exact Or.inl rfl
  | cons x xs ih =>
    intro a
    rcases ih (min a x) with h | h
    · rcases min_choice a x with hm | hm
      · exact Or.inl (by rw [List.foldl_cons, h, hm])
      · exact Or.inr (by rw [List.foldl_cons, h, hm]; exact List.mem_cons_self x xs)
    · exact Or.inr (List.mem_cons_of_mem x h)

theorem minOfList_mem {xs : List Int} (h : xs ≠ []) : minOfList xs ∈ xs := by
  match xs, h with
  | x :: xs, _ =>
    show List.foldl min x xs ∈ x :: xs
    rcases foldl_min_mem xs x with h1 | h1
    · rw [h1]; exact List.mem_cons_self x xs
    · exact List.mem_cons_of_mem x h1

theorem minOfList_le (xs : List Int) : ∀ x ∈ xs, minOfList xs ≤ x := by
  match xs with
  | [] => intro x hx; simp at hx
  | y :: xs =>
    intro x hx
    show List.foldl min y xs ≤ x
    rcases List.mem_cons.mp hx with rfl | hx
    · exact foldl_min_le_init xs x
    · exact foldl_min_le_mem xs y x hx

theorem minOfList_eq_of {xs : List Int} {v : Int} (hv : v ∈ xs)
    (hlb : ∀ x ∈ xs, v ≤ x) : minOfList xs = v := by
  have h1 : minOfList xs ≤ v := minOfList_le xs v hv
  have h2 : v ≤ minOfList xs := hlb _ (minOfList_mem (by rintro rfl; simp at hv))
  omega

theorem foldl_max_init_le : ∀ (xs : List Int) (a : Int), a ≤ xs.foldl max a := by
  intro xs
  induction xs with
  | nil => intro a; exact Int.le_refl a
  | cons x xs ih =>
    intro a
    exact Int.le_trans (Int.le_max_left a x) (ih (max a x))

theorem foldl_max_mem_le : ∀ (xs : List Int) (a : Int), ∀ x ∈ xs,
    x ≤ xs.foldl max a := by
  intro xs
  induction xs with
  | nil => intro a x hx; simp at hx
  | cons y xs ih =>
    intro a x hx
    rcases List.mem_cons.mp hx with rfl | hx
    · exact Int.le_trans (Int.le_max_right a x) (foldl_max_init_le xs (max a x))
    · exact ih (max a y) x hx

theorem foldl_max_mem : ∀ (xs : List Int) (a : Int),
    xs.foldl max a = a ∨ xs.foldl max a ∈ xs := by
  intro xs
  induction xs with
  | nil => intro a; exact Or.inl rfl
  | cons x xs ih =>
    intro a
    rcases ih (max a x) with h | h
    · rcases max_choice a x with hm | hm
      · exact Or.inl (by rw [List.foldl_cons, h, hm])
      · exact Or.inr (by rw [List.foldl_cons, h, hm]; exact List.mem_cons_self x xs)
    · exact Or.inr (List.mem_cons_of_mem x h)

theorem maxOfList_mem {xs : List Int} (h : xs ≠ []) : maxOfList xs ∈ xs := by
  match xs, h with
  | x :: xs, _ =>
    show List.foldl max x xs ∈ x :: xs
    rcases foldl_max_mem xs x with h1 | h1
    · rw [h1]; exact List.mem_cons_self x xs
    · exact List.mem_cons_of_mem x h1

theorem maxOfList_ge (xs : List Int) : ∀ x ∈ xs, x ≤ maxOfList xs := by
  match xs with
  | [] => intro x hx; simp at hx
  | y :: xs =>
    intro x hx
    show x ≤ List.foldl max y xs
    rcases List.mem_cons.mp hx with rfl | hx
    · exact foldl_max_init_le xs x
    · exact foldl_max_mem_le xs y x hx

theorem maxOfList_eq_of {xs : List Int} {v : Int} (hv : v ∈ xs)
    (hub : ∀ x ∈ xs, x ≤ v) : maxOfList xs = v := by
  have h1 : v ≤ maxOfList xs := maxOfList_ge xs v hv
  have h2 : maxOfList xs ≤ v := hub _ (maxOfList_mem (by rintro rfl; simp at hv))
  omega

theorem startsOf_append (A B : List TaskRec) (sid : Nat) :
    startsOf (A ++ B) sid = startsOf A sid ++ startsOf B sid := by
  unfold startsOf
  rw [List.filter_append, List.map_append]

theorem startsOf_eq_nil {B : List TaskRec} {sid : Nat}
    (h : ∀ t ∈ B, t.seriesId ≠ some sid) : startsOf B sid = [] := by
  unfold startsOf
  have : B.filter (fun t => t.seriesId == some sid) = [] := by
    induction B with
    | nil => rfl
    | cons t B ih =>
      rw [List.filter_cons]
      have hne : (t.seriesId == some sid) = false := by
        simpa using h t (List.mem_cons_self t B)
      rw [hne]
      exact ih (fun t' ht' => h t' (List.mem_cons_of_mem t ht'))
  rw [this, List.map_nil]

theorem createTasksFromSeries_mem (sid : Nat) (tpl : TaskRec) :
    ∀ (occ : List Int) (fid : Nat) (t : TaskRec),
      t ∈ createTasksFromSeries sid tpl occ fid →
      t.seriesId = some sid ∧ t.startTime ∈ occ ∧ t.userId = tpl.userId := by
  intro occ
  induction occ with
  | nil => intro fid t ht; simp [createTasksFromSeries] at ht
  | cons o rest ih =>
    intro fid t ht
    rw [createTasksFromSeries] at ht
    rcases List.mem_cons.mp ht with rfl | ht
    · exact ⟨rfl, List.mem_cons_self o rest, rfl⟩
    · rcases ih (fid + 1) t ht with ⟨h1, h2, h3⟩
      exact ⟨h1, List.mem_cons_of_mem o h2, h3⟩

theorem startsOf_createTasksFromSeries (sid : Nat) (tpl : TaskRec) :
    ∀ (occ : List Int) (fid : Nat),
      startsOf (createTasksFromSeries sid tpl occ fid) sid = occ := by
  intro occ
  induction occ with
  | nil => intro fid; rfl
  | cons o rest ih =>
    intro fid
    rw [createTasksFromSeries]
    unfold startsOf at ih ⊢
    rw [List.filter_cons]
    simp only [beq_self_eq_true, if_pos]
    rw [List.map_cons, ih (fid + 1)]

theorem startsOf_createTasksFromSeries_other (sid sid' : Nat) (tpl : TaskRec)
    (hne : sid' ≠ sid) :
    ∀ (occ : List Int) (fid : Nat),
      startsOf (createTasksFromSeries sid tpl occ fid) sid' = [] := by
  intro occ fid
  refine startsOf_eq_nil ?_
  intro t ht
  rcases createTasksFromSeries_mem sid tpl occ fid t ht with ⟨h1, _, _⟩
  rw [h1]
  intro hcontra
  exact hne ((Option.some.inj hcontra).symm)

/-- Removing tasks that never reference `sid` leaves the member starts of
`sid` unchanged. -/
theorem startsOf_filter_stable {l : List TaskRec} {q : TaskRec → Bool}
    {sid : Nat} (h : ∀ t ∈ l, t.seriesId = some sid → q t = true) :
    startsOf (l.filter q) sid = startsOf l sid := by
  unfold startsOf
  congr 1
  induction l with
  | nil => rfl
  | cons t l ih =>
    have ih' := ih (fun t' ht' => h t' (List.mem_cons_of_mem t ht'))
    rw [List.filter_cons]
    by_cases hq : q t = true
    · rw [hq]
      simp only [if_pos]
      rw [List.filter_cons, ih', List.filter_cons]
    · have hq' : q t = false := by simpa using hq
      rw [hq']
      simp only [Bool.false_eq_true, if_neg, not_false_iff]
      have hser : (t.seriesId == some sid) = false := by
        rcases hs : t.seriesId == some sid with _ | _
        · rfl
        · exact absurd (h t (List.mem_cons_self t l) (by simpa using hs)) (by simp [hq'])
      rw [List.filter_cons, hser]
      simpa using ih'

theorem startsOf_single_nonmember (t0 : TaskRec) (h : t0.seriesId = none)
    (sid : Nat) : startsOf [t0] sid = [] := by
  unfold startsOf
  simp [h]

theorem findTask_mem {db : DB} {u id : Nat} {task : TaskRec}
    (h : findTask db u id = some task) :
    task ∈ db.tasks ∧ task.id = id ∧ task.userId = u := by
  unfold findTask at h
  have hmem := List.mem_of_find?_eq_some h
  have hpred := List.find?_some h
  simp at hpred
  exact ⟨hmem, hpred.1, hpred.2⟩

/-- After `createTask` the bound cache is correct for every series that has a
member (the fresh series gets exactly the generated occurrences; no other
series' member set changes). -/
theorem createTask_boundsOk {u : Nat} {off : Int} {db : DB}
    (hwf : WF u db) (hb : boundsOk db) (p : Payload) :
    boundsOk (createTask u p off db).2 := by
  unfold createTask
  dsimp only
  split
  · -- single task: no series touched, new task has no seriesId
    intro sr hsr hne
    unfold memberStarts at hne ⊢
    dsimp only at hsr hne ⊢
    rw [startsOf_append] at hne ⊢
    rw [startsOf_single_nonmember _ ?h1] at hne
    case h1 => simp
    rw [startsOf_single_nonmember _ ?h2]
    case h2 => simp
    simp only [List.append_nil] at hne ⊢
    exact hb sr hsr hne
  · split
    · exact hb
    · rename_i r
      split
      · -- p.startTime is absent: series saved, generation throws
        intro sr hsr hne
        unfold memberStarts at hne ⊢
        dsimp only at hsr hne ⊢
        rcases List.mem_append.mp hsr with hold | hnew
        · exact hb sr hold hne
        · simp only [List.mem_singleton] at hnew
          subst hnew
          exfalso
          apply hne
          refine startsOf_eq_nil ?_
          intro t ht hcontra
          have := hwf.task_lt t ht db.nextId hcontra
          omega
      · rename_i startT
        split
        · -- generation threw
          intro sr hsr hne
          unfold memberStarts at hne ⊢
          dsimp only at hsr hne ⊢
          rcases List.mem_append.mp hsr with hold | hnew
          · exact hb sr hold hne
          · simp only [List.mem_singleton] at hnew
            subst hnew
            exfalso
            apply hne
            refine startsOf_eq_nil ?_
            intro t ht hcontra
            have := hwf.task_lt t ht db.nextId hcontra
            omega
        · rename_i occurrences hocc
          have hold_tasks : ∀ sid', sid' < db.nextId → ∀ tpl fid,
              startsOf (db.tasks ++ createTasksFromSeries db.nextId tpl
                occurrences fid) sid' = startsOf db.tasks sid' := by
            intro sid' hlt tpl fid
            rw [startsOf_append,
              startsOf_createTasksFromSeries_other db.nextId sid' tpl
                (by omega) occurrences fid]
            simp
          have hnew_tasks : ∀ tpl fid,
              startsOf (db.tasks ++ createTasksFromSeries db.nextId tpl
                occurrences fid) db.nextId = occurrences := by
            intro tpl fid
            rw [startsOf_append, startsOf_createTasksFromSeries]
            rw [startsOf_eq_nil (by
              intro t ht hcontra
              have := hwf.task_lt t ht db.nextId hcontra
              omega)]
            simp
          split
          · -- occurrences empty: no bounds written
            intro sr hsr hne
            unfold memberStarts at hne ⊢
            dsimp only at hsr hne ⊢
            rcases List.mem_append.mp hsr with hold | hnew
            · rw [hold_tasks sr.id (hwf.series_lt sr hold)] at hne ⊢
              exact hb sr hold hne
            · simp only [List.mem_singleton] at hnew
              subst hnew
              exfalso
              apply hne
              dsimp only
              rw [hnew_tasks]
              rename_i hempty
              simpa using hempty
          · -- occurrences non-empty: the fresh series gets min/max
            intro sr hsr hne
            unfold updateSeries at hsr hne ⊢
            unfold memberStarts at hne ⊢
            dsimp only at hsr hne ⊢
            rcases List.mem_map.mp hsr with ⟨sr0, hsr0, rfl⟩
            rcases List.mem_append.mp hsr0 with hold | hnew
            · have hid : (sr0.id == db.nextId) = false := by
                have := hwf.series_lt sr0 hold
                simp
                omega
              rw [if_neg (by simp [hid])] at hne ⊢
              rw [hold_tasks sr0.id (hwf.series_lt sr0 hold)] at hne ⊢
              exact hb sr0 hold hne
            · simp only [List.mem_singleton] at hnew
              subst hnew
              dsimp only at hne ⊢
              rw [if_pos (beq_self_eq_true db.nextId)] at hne ⊢
              dsimp only at hne ⊢
              rw [hnew_tasks] at hne ⊢
              exact ⟨rfl, rfl⟩

theorem task_eq_of_id {u : Nat} {db : DB} (hwf : WF u db) {t t' : TaskRec}
    (ht : t ∈ db.tasks) (ht' : t' ∈ db.tasks) (hid : t.id = t'.id) : t = t' :=
  List.inj_on_of_nodup_map hwf.task_ids_nodup ht ht' hid

/-- Keeping exactly the elements below a cutoff does not change the minimum,
as long as something survives. -/
theorem minOfList_filter_lt {xs : List Int} {T : Int}
    (h : xs.filter (fun x => decide (x < T)) ≠ []) :
    minOfList (xs.filter (fun x => decide (x < T))) = minOfList xs := by
  have hxs : xs ≠ [] := by
    intro hnil
    rw [hnil] at h
    simp at h
  have hmemf := minOfList_mem h
  have hmem' := List.mem_of_mem_filter hmemf
  have hlt : minOfList xs < T := by
    have hf := List.of_mem_filter hmemf
    have hflt : minOfList (xs.filter (fun x => decide (x < T))) < T := by
      simpa using hf
    exact lt_of_le_of_lt (minOfList_le xs _ hmem') hflt
  have hminmemf : minOfList xs ∈ xs.filter (fun x => decide (x < T)) :=
    List.mem_filter.mpr ⟨minOfList_mem hxs, by simpa using hlt⟩
  exact minOfList_eq_of hminmemf
    (fun x hx => minOfList_le xs x (List.mem_of_mem_filter hx))

theorem map_startTime_filter (p : Int → Bool) (q : TaskRec → Bool) :
    ∀ l : List TaskRec,
      (l.filter (fun t => q t && p t.startTime)).map (fun t => t.startTime)
        = ((l.filter q).map (fun t => t.startTime)).filter p := by
  intro l
  induction l with
  | nil => rfl
  | cons t l ih =>
    rw [List.filter_cons, List.filter_cons]
    by_cases hq : q t = true
    · by_cases hp : p t.startTime = true
      · simp only [hq, hp, Bool.and_self, if_pos]
        rw [List.map_cons, List.map_cons, List.filter_cons]
        simp only [hp, if_pos]
        rw [ih]
      · simp only [hq, Bool.true_and]
        rw [if_neg (by simp [hp]), if_pos (by simp)]
        rw [List.map_cons, List.filter_cons]
        simp only [hp]
        rw [if_neg (by simp [hp])]
        exact ih
    · simp only [Bool.and_eq_true, not_and] at *
      rw [if_neg (by simp [hq]), if_neg (by simp [hq])]
      exact ih

/-- An `all`-mode delete preserves the bound cache of every surviving series:
either a lone task is removed (touching no series membership) or a whole
series is removed together with all its member tasks. -/
theorem deleteTaskById_all_boundsOk {u id : Nat} {db : DB}
    (hwf : WF u db) (hb : boundsOk db) :
    boundsOk (deleteTaskById u id .all db).2 := by
  unfold deleteTaskById
  split
  · exact hb
  · rename_i task hfind
    dsimp only
    split
    · -- the target has no series: only that one task disappears
      rename_i hsid
      intro sr hsr hne
      unfold memberStarts at hne ⊢
      dsimp only at hsr hne ⊢
      have hstable : startsOf (db.tasks.filter (fun t => t.id != task.id)) sr.id
          = startsOf db.tasks sr.id := by
        refine startsOf_filter_stable ?_
        intro t ht hts
        have hidne : t.id ≠ task.id := by
          intro hcontra
          have hteq := task_eq_of_id hwf ht (findTask_mem hfind).1 hcontra
          rw [hteq, hsid] at hts
          exact Option.noConfusion hts
        simpa using hidne
      rw [hstable] at hne ⊢
      exact hb sr hsr hne
    · -- a whole series goes away together with its members
      rename_i sid hsid
      intro sr hsr hne
      unfold deleteSeries at hsr
      unfold memberStarts deleteSeries at hne ⊢
      dsimp only at hsr hne ⊢
      have hsrmem := List.mem_of_mem_filter hsr
      have hsrne : sr.id ≠ sid := by
        have := List.of_mem_filter hsr
        simpa using this
      have hstable : startsOf (db.tasks.filter
          (fun t => ¬ (t.seriesId == some sid && t.userId == u))) sr.id
          = startsOf db.tasks sr.id := by
        refine startsOf_filter_stable ?_
        intro t ht hts
        simp [hts, hsrne]
      rw [hstable] at hne ⊢
      exact hb sr hsrmem hne

/-- A `following`-mode delete preserves the bound cache: the deleted suffix
never contains the series minimum unless it contains every member, in which
case the series itself is removed; the maximum is recomputed. -/
theorem deleteTaskById_following_boundsOk {u id : Nat} {db : DB}
    (hwf : WF u db) (hb : boundsOk db) :
    boundsOk (deleteTaskById u id .following db).2 := by
  unfold deleteTaskById
  split
  · exact hb
  · rename_i task hfind
    dsimp only
    split
    · -- the target has no series: only that one task disappears
      rename_i hsid
      intro sr hsr hne
      unfold memberStarts at hne ⊢
      dsimp only at hsr hne ⊢
      have hstable : startsOf (db.tasks.filter (fun t => t.id != task.id)) sr.id
          = startsOf db.tasks sr.id := by
        refine startsOf_filter_stable ?_
        intro t ht hts
        have hidne : t.id ≠ task.id := by
          intro hcontra
          have hteq := task_eq_of_id hwf ht (findTask_mem hfind).1 hcontra
          rw [hteq, hsid] at hts
          exact Option.noConfusion hts
        simpa using hidne
      rw [hstable] at hne ⊢
      exact hb sr hsr hne
    · rename_i sid hsid
      have hother : ∀ s', s' ≠ sid →
          startsOf (db.tasks.filter
            (fun t => ¬ (t.seriesId == some sid
              && decide (task.startTime ≤ t.startTime) && t.userId == u))) s'
            = startsOf db.tasks s' := by
        intro s' hs'
        refine startsOf_filter_stable ?_
        intro t ht hts
        simp [hts, hs']
      have hsidkey : startsOf (db.tasks.filter
            (fun t => ¬ (t.seriesId == some sid
              && decide (task.startTime ≤ t.startTime) && t.userId == u))) sid
          = (startsOf db.tasks sid).filter
              (fun x => decide (x < task.startTime)) := by
        unfold startsOf
        rw [List.filter_filter]
        have hpt : ∀ t ∈ db.tasks,
            ((t.seriesId == some sid)
              && decide ¬((t.seriesId == some sid
                && decide (task.startTime ≤ t.startTime) && t.userId == u)
                  = true))
            = ((t.seriesId == some sid)
              && decide (t.startTime < task.startTime)) := by
          intro t ht
          by_cases hts : t.seriesId = some sid
          · have huser : t.userId = u :=
              hwf.member_user t ht (by rw [hts]; simp)
            by_cases hlt : task.startTime ≤ t.startTime
            · have h2 : ¬ (t.startTime < task.startTime) := by omega
              simp [hts, huser, hlt, h2]
            · have h2 : t.startTime < task.startTime := by omega
              simp [hts, huser, hlt, h2]
          · have hbeq : (t.seriesId == some sid) = false := by simp [hts]
            rw [hbeq]
            simp
        rw [List.filter_congr hpt]
        exact map_startTime_filter (fun x => decide (x < task.startTime))
          (fun t => t.seriesId == some sid) db.tasks
      split
      · -- no member survives: the whole series is removed
        intro sr hsr hne
        unfold deleteSeries at hsr
        unfold memberStarts deleteSeries at hne ⊢
        dsimp only at hsr hne ⊢
        have hsrmem := List.mem_of_mem_filter hsr
        have hsrne : sr.id ≠ sid := by
          have := List.of_mem_filter hsr
          simpa using this
        rw [hother sr.id hsrne] at hne ⊢
        exact hb sr hsrmem hne
      · -- members survive: the maximum is recomputed, the minimum is stable
        intro sr hsr hne
        unfold updateSeries at hsr
        unfold memberStarts updateSeries at hne ⊢
        dsimp only at hsr hne ⊢
        rcases List.mem_map.mp hsr with ⟨sr0, hsr0, rfl⟩
        by_cases hcase : sr0.id = sid
        · rw [if_pos (by simp [hcase])] at hne ⊢
          dsimp only at hne ⊢
          rw [hcase] at hne ⊢
          rw [hsidkey] at hne ⊢
          have hMold_ne : startsOf db.tasks sid ≠ [] := by
            intro hnil
            rw [hnil] at hne
            simp at hne
          have hbb := hb sr0 hsr0 (by
            unfold memberStarts
            rw [hcase]
            exact hMold_ne)
          obtain ⟨hf, hl⟩ := hbb
          unfold memberStarts at hf
          rw [hcase] at hf
          have hrem : ((db.tasks.filter
                (fun t => ¬ (t.seriesId == some sid
                  && decide (task.startTime ≤ t.startTime)
                  && t.userId == u))).filter
                (fun t => t.seriesId == some sid && t.userId == u)).map
                (fun t => t.startTime)
              = (startsOf db.tasks sid).filter
                  (fun x => decide (x < task.startTime)) := by
            have hcg : ∀ t ∈ db.tasks.filter
                (fun t => ¬ (t.seriesId == some sid
                  && decide (task.startTime ≤ t.startTime)
                  && t.userId == u)),
                (t.seriesId == some sid && t.userId == u)
                  = (t.seriesId == some sid) := by
              intro t ht
              by_cases hts : t.seriesId = some sid
              · have huser : t.userId = u :=
                  hwf.member_user t (List.mem_of_mem_filter ht)
                    (by rw [hts]; simp)
                simp [hts, huser]
              · have hbeq : (t.seriesId == some sid) = false := by simp [hts]
                rw [hbeq]
                simp
            rw [List.filter_congr hcg]
            exact hsidkey
          constructor
          · rw [minOfList_filter_lt hne]
            exact hf
          · rw [hrem]
        · rw [if_neg (by simp [hcase])] at hne ⊢
          rw [hother sr0.id hcase] at hne ⊢
          exact hb sr0 hsr0 hne

def c2rec : Recurrence :=
  { frequency := Frequency.daily, count := some 2, timezone := some "UTC" }

def c2payload : Payload :=
  { startTime := some 0
    isRecurring := true
    recurrence := some c2rec }

def c2db : DB :=
  { tasks := [{ id := 1
                userId := 7
                startTime := 0
                seriesId := some 0
                isRecurring := true },
              { id := 2
                userId := 7
                startTime := 86400000
                seriesId := some 0
                isRecurring := true }]
    series := [{ id := 0
                 userId := 7
                 recurrence := c2rec
                 firstOccurrenceAt := some 0
                 lastOccurrenceAt := some 86400000 }]
    nextId := 3 }

set_option maxRecDepth 100000 in
/-- Counterexample to the original C2 reading: creating a daily count-2
recurring task establishes correct bounds, but a `single`-mode delete of the
earlier member leaves `firstOccurrenceAt` stale. -/
theorem C2_counterexample :
    boundsOk (createTask 7 c2payload 0
      { tasks := [], series := [], nextId := 0 }).2 ∧
    ¬ boundsOk (deleteTaskById 7 1 EditMode.single
      (createTask 7 c2payload 0
        { tasks := [], series := [], nextId := 0 }).2).2 := by
  constructor
  · decide
  · decide

/-- Position equation of the month scan: the produced month/day sits exactly
`r` days after the start of month `m`. -/
theorem monthScan_pos :
    ∀ (c : Nat) (y : Int) (m r fuel : Nat), 1 ≤ m → r < sumDims y m c →
      c ≤ fuel + 1 →
      daysBeforeMonth y (monthScan y fuel m r).month
        + ((monthScan y fuel m r).day - 1)
      = daysBeforeMonth y m + r := by
  intro c
  induction c with
  | zero => intro y m r fuel _ hr _; simp [sumDims] at hr
  | succ c ih =>
    intro y m r fuel hm hr hc
    by_cases h : r < daysInMonth y m
    · match fuel with
      | 0 =>
        rw [monthScan]
        dsimp only
        omega
      | fuel + 1 =>
        rw [monthScan, if_pos h]
        dsimp only
        omega
    · match fuel with
      | 0 =>
        rw [sumDims] at hr
        have : c = 0 := by omega
        subst this
        simp [sumDims] at hr
        omega
      | fuel + 1 =>
        rw [monthScan, if_neg h]
        rw [sumDims] at hr
        have h2 := ih y (m + 1) (r - daysInMonth y m) fuel (by omega) (by omega)
          (by omega)
        rw [daysBeforeMonth_succ y m hm] at h2
        omega

/-- Position equation of the year scan: the produced civil date sits exactly
`k` days after the start of year `y`. -/
theorem civPos_pos :
    ∀ (fuel : Nat) (y : Int) (k : Nat), k ≤ 365 * fuel + 364 →
      daysBeforeYear (civPos fuel y k).year
        + ((daysBeforeMonth (civPos fuel y k).year (civPos fuel y k).month : Int)
          + (((civPos fuel y k).day : Int) - 1))
      = daysBeforeYear y + (k : Int) := by
  intro fuel
  induction fuel with
  | zero =>
    intro y k hk
    have hge := daysInYear_ge y
    have hv := monthScan_valid 12 y 1 k 12 (by rw [sumDims_1_12]; omega) (by omega)
    have hp := monthScan_pos 12 y 1 k 12 (by omega) (by rw [sumDims_1_12]; omega)
      (by omega)
    rcases hv with ⟨_, _, hyr, hd1, _⟩
    rw [show civPos 0 y k = monthScan y 12 1 k from rfl] at *
    rw [hyr] at *
    have hb1 : daysBeforeMonth y 1 = 0 := rfl
    omega
  | succ fuel ih =>
    intro y k hk
    rw [civPos]
    by_cases h : k < daysInYear y
    · rw [if_pos h]
      have hv := monthScan_valid 12 y 1 k 12 (by rw [sumDims_1_12]; omega) (by omega)
      have hp := monthScan_pos 12 y 1 k 12 (by omega) (by rw [sumDims_1_12]; omega)
        (by omega)
      rcases hv with ⟨_, _, hyr, hd1, _⟩
      rw [hyr] at *
      have hb1 : daysBeforeMonth y 1 = 0 := rfl
      omega
    · rw [if_neg h]
      have hge := daysInYear_ge y
      have h2 := ih (y + 1) (k - daysInYear y) (by omega)
      have h3 : daysBeforeYear (y + 1) = daysBeforeYear y + (daysInYear y : Int) :=
        daysBeforeYear_succ y
      omega

/-- Converting a non-negative epoch day to a civil date and back is the
identity. -/
theorem dayNumber_civilFromDays {n : Int} (hn : 0 ≤ n) :
    dayNumber (civilFromDays n).year (civilFromDays n).month
      (civilFromDays n).day = n := by
  unfold civilFromDays
  rw [if_pos hn]
  have hp := civPos_pos (n.toNat / 365 + 1) 1970 n.toNat (by omega)
  have hbase : daysBeforeYear 1970 = epochDayBase := by decide
  unfold dayNumber
  omega

/-- Every occurrence produced by the generator is at or after the anchor,
provided the anchor is a whole second on the wall clock (`% 1000 = 0` after
the zone shift) and not before the epoch in local time. -/
theorem generateOccurrences_ge_anchor (off startTime : Int) (r : Recurrence)
    (out : List Int) (h : generateOccurrences off startTime r = .ok out)
    (hmod : (startTime + off) % 1000 = 0) (hnn : 0 ≤ startTime + off) :
    ∀ t ∈ out, startTime ≤ t := by
  intro t ht
  unfold generateOccurrences at h
  split at h
  · exact Except.noConfusion h
  · split at h
    · -- yearly
      obtain rfl := Except.ok.inj h
      rcases generateYearly_mem off startTime r t ht with ⟨y, hy, hocc⟩
      rcases yearlyOccurrence_shape hocc with ⟨hm1, hm, hd1, hd, rfl⟩
      have hn : 0 ≤ (startTime + off) / msPerDay :=
        Int.ediv_nonneg hnn (by unfold msPerDay; omega)
      have hrt := dayNumber_civilFromDays hn
      have hvalid := civilFromDays_valid hn
      have hD : (startTime + off) / msPerDay
          ≤ dayNumber y (civilFromDays ((startTime + off) / msPerDay)).month
              (civilFromDays ((startTime + off) / msPerDay)).day := by
        rcases eq_or_lt_of_le hy with heq | hlt
        · rw [← heq, hrt]
        · have hstrict := dayNumber_lt_dayNumber hvalid.2.1 hvalid.2.2.1
            hvalid.2.2.2.1 hvalid.2.2.2.2 hm1 hm hd1 hd (Or.inl hlt)
          omega
      generalize hDD : dayNumber y (civilFromDays ((startTime + off) / msPerDay)).month
          (civilFromDays ((startTime + off) / msPerDay)).day = D at hD
      unfold msPerDay at *
      omega
    · -- daily / weekly / monthly
      obtain rfl := Except.ok.inj h
      rcases generateNonYearly_mem off startTime r t ht with ⟨dd, j, hcand, hlo, rfl⟩
      have hna : convertLocalTimeInUTC off startTime = startTime + off := by
        unfold convertLocalTimeInUTC
        exact floorSec_id hmod
      rw [hna] at hlo ⊢
      unfold msPerDay at *
      omega

theorem findSeries_mem {db : DB} {sid : Nat} {series : SeriesRec}
    (h : findSeries db sid = some series) :
    series ∈ db.series ∧ series.id = sid := by
  unfold findSeries at h
  have hmem := List.mem_of_find?_eq_some h
  have hpred := List.find?_some h
  simp at hpred
  exact ⟨hmem, hpred⟩

theorem tasks_ite (c : Prop) [Decidable c] (a : DB) (sid : Nat)
    (f : SeriesRec → SeriesRec) :
    (if c then a else updateSeries a sid f).tasks = a.tasks := by
  split <;> rfl

theorem tasks_ite_del (c : Prop) [Decidable c] (a : DB) (sid : Nat)
    (f : SeriesRec → SeriesRec) :
    (if c then deleteSeries a sid else updateSeries a sid f).tasks = a.tasks := by
  split <;> rfl

/-- The final bulk field application of a split keeps every task's series
membership and start time. -/
theorem mem_map_guard {c : TaskRec → Bool} {p : Payload} {l : List TaskRec}
    {t : TaskRec}
    (ht : t ∈ l.map (fun t0 =>
      if c t0 then applyPayload t0 (stripScheduling p) else t0)) :
    ∃ t0 ∈ l, t.seriesId = t0.seriesId ∧ t.startTime = t0.startTime := by
  rcases List.mem_map.mp ht with ⟨t0, ht0, rfl⟩
  refine ⟨t0, ht0, ?_, ?_⟩ <;> split <;> rfl

theorem mem_map_guard_rev {c : TaskRec → Bool} {p : Payload} {l : List TaskRec}
    {t0 : TaskRec} (ht0 : t0 ∈ l) :
    ∃ t ∈ l.map (fun x =>
      if c x then applyPayload x (stripScheduling p) else x),
      t.seriesId = t0.seriesId := by
  refine ⟨_, List.mem_map_of_mem _ ht0, ?_⟩
  split <;> rfl

/-- C3: a `following`-mode update that changes the rule (corrected: with the
payload carrying no `startTime` of its own, and for a whole-second,
post-epoch target) splits the series at the target: every task of the fresh
series starts at or after the target, every task left in the old series
starts strictly before it, and the old series survives exactly when such an
earlier task remains. -/
theorem C3_following_split (u id : Nat) (p : Payload) (off : Int) (db : DB)
    (task : TaskRec) (sid : Nat) (series : SeriesRec) (db' : DB)
    (hwf : WF u db)
    (hfind : findTask db u id = some task)
    (htsid : task.seriesId = some sid)
    (hser : findSeries db sid = some series)
    (hch : (recurrenceChanged p series || timeChanged p task) = true)
    (hpst : p.startTime = none)
    (hmod : (task.startTime + off) % 1000 = 0)
    (hnn : 0 ≤ task.startTime + off)
    (hres : updateTaskById u id .following p off db = (.ok, db')) :
    (∀ t ∈ db'.tasks, t.seriesId = some db.nextId →
      task.startTime ≤ t.startTime) ∧
    (∀ t ∈ db'.tasks, t.seriesId = some sid → t.startTime < task.startTime) ∧
    ((∃ sr ∈ db'.series, sr.id = sid) ↔
      ∃ t ∈ db'.tasks, t.seriesId = some sid) := by
  have hsidlt : sid < db.nextId := by
    have hm := findSeries_mem hser
    have := hwf.series_lt series hm.1
    omega
  unfold updateTaskById at hres
  rw [hfind] at hres
  dsimp only at hres
  rw [htsid] at hres
  dsimp only at hres
  rw [hser] at hres
  dsimp only at hres
  rw [if_pos hch] at hres
  have hstart : alignedStart off (p.recurrence.getD series.recurrence) p
      task.startTime = task.startTime := by
    unfold alignedStart
    rw [hpst]
    split <;> rfl
  rw [hstart] at hres
  rcases hg : generateOccurrences off task.startTime
      (p.recurrence.getD series.recurrence) with err | occurrences
  · rw [hg] at hres
    dsimp only at hres
    exact absurd (congrArg Prod.fst hres) (by simp)
  · rw [hg] at hres
    dsimp only at hres
    injection hres with hres1 hres2
    subst hres2
    dsimp only
    rw [tasks_ite_del, tasks_ite]
    dsimp only
    refine ⟨?_, ?_, ?_⟩
    · -- every task of the fresh series starts at or after the target
      intro t ht hts
      rcases mem_map_guard ht with ⟨t0, ht0, hser0, hstt0⟩
      rw [hser0] at hts
      rw [hstt0]
      rcases List.mem_append.mp ht0 with hold | hnew
      · have ht0db := List.mem_of_mem_filter hold
        have := hwf.task_lt t0 ht0db db.nextId hts
        omega
      · have hmem := createTasksFromSeries_mem db.nextId _ occurrences _ t0 hnew
        exact generateOccurrences_ge_anchor off task.startTime _ occurrences hg
          hmod hnn t0.startTime hmem.2.1
    · -- every surviving old-series task starts strictly before the target
      intro t ht hts
      rcases mem_map_guard ht with ⟨t0, ht0, hser0, hstt0⟩
      rw [hser0] at hts
      rw [hstt0]
      rcases List.mem_append.mp ht0 with hold | hnew
      · have ht0db := List.mem_of_mem_filter hold
        have hq := List.of_mem_filter hold
        have huser : t0.userId = u := hwf.member_user t0 ht0db (by rw [hts]; simp)
        simp [hts, huser] at hq
        omega
      · have hmem := createTasksFromSeries_mem db.nextId _ occurrences _ t0 hnew
        rw [hmem.1] at hts
        have := Option.some.inj hts
        omega
    · -- the old series survives exactly when an earlier member remains
      split
      · rename_i hc5
        rw [List.isEmpty_iff, List.filter_eq_nil_iff] at hc5
        refine iff_of_false ?_ ?_
        · rintro ⟨sr, hsr, hid⟩
          have hf := List.of_mem_filter hsr
          simp at hf
          exact hf hid
        · rintro ⟨t, ht, hts⟩
          rcases mem_map_guard ht with ⟨t0, ht0, hser0, _⟩
          rw [hser0] at hts
          rcases List.mem_append.mp ht0 with hold | hnew
          · have ht0db := List.mem_of_mem_filter hold
            have huser : t0.userId = u :=
              hwf.member_user t0 ht0db (by rw [hts]; simp)
            have := hc5 t0 ht0
            simp [hts, huser] at this
          · have hmem := createTasksFromSeries_mem db.nextId _ occurrences _ t0 hnew
            rw [hmem.1] at hts
            have := Option.some.inj hts
            omega
      · rename_i hc5
        rw [List.isEmpty_iff, List.filter_eq_nil_iff] at hc5
        push_neg at hc5
        obtain ⟨t0, ht0, hpred⟩ := hc5
        simp at hpred
        refine iff_of_true ?_ ?_
        · have hmem := (findSeries_mem hser).1
          have hid := (findSeries_mem hser).2
          unfold updateSeries
          dsimp only
          by_cases hc4 : occurrences.isEmpty = true
          · rw [if_pos hc4]
            refine ⟨_, List.mem_map_of_mem _ (List.mem_append_left _ hmem), ?_⟩
            split
            · exact hid
            · exact hid
          · rw [if_neg hc4]
            refine ⟨_, List.mem_map_of_mem _
              (List.mem_map_of_mem _ (List.mem_append_left _ hmem)), ?_⟩
            split
            · split
              · exact hid
              · exact hid
            · split
              · exact hid
              · exact hid
        · refine ⟨_, List.mem_map_of_mem _ ht0, ?_⟩
          split
          · exact hpred.1
          · exact hpred.1

def c3wrec : Recurrence :=
  { frequency := Frequency.daily, count := some 2, timezone := some "UTC" }

def c3wtask : TaskRec :=
  { id := 2
    userId := 7
    startTime := 90000000
    seriesId := some 0
    isRecurring := true }

def c3wseries : SeriesRec :=
  { id := 0
    userId := 7
    recurrence := c3wrec
    firstOccurrenceAt := some 3600000
    lastOccurrenceAt := some 90000000 }

def c3wdb : DB :=
  { tasks := [{ id := 1
                userId := 7
                startTime := 3600000
                seriesId := some 0
                isRecurring := true },
              c3wtask]
    series := [c3wseries]
    nextId := 3 }

def c3wpayload : Payload :=
  { recurrence := some { frequency := Frequency.daily
                         count := some 1
                         timezone := some "UTC" } }

def c3res : DB := (updateTaskById 7 2 EditMode.following c3wpayload 0 c3wdb).2

set_option maxRecDepth 400000 in
/-- Witness for C3 at a concrete two-member daily series split at its second
task. -/
theorem C3_witness :
    (∀ t ∈ c3res.tasks, t.seriesId = some c3wdb.nextId →
      c3wtask.startTime ≤ t.startTime) ∧
    (∀ t ∈ c3res.tasks, t.seriesId = some 0 →
      t.startTime < c3wtask.startTime) ∧
    ((∃ sr ∈ c3res.series, sr.id = 0) ↔
      ∃ t ∈ c3res.tasks, t.seriesId = some 0) :=
  C3_following_split 7 2 c3wpayload 0 c3wdb c3wtask 0 c3wseries c3res
    ⟨by decide,
     by
      intro t ht sid hsid
      simp only [c3wdb, List.mem_cons, List.not_mem_nil, or_false] at ht
      rcases ht with rfl | rfl
      · simp at hsid
        simp only [c3wdb]
        omega
      · simp [c3wtask] at hsid
        simp only [c3wdb]
        omega,
     by decide,
     by decide⟩
    rfl rfl rfl (by decide) rfl (by decide) (by decide) rfl

def c3cpayload : Payload :=
  { startTime := some 1800000 }

set_option maxRecDepth 400000 in
/-- Counterexample to the original C3 reading: a `following` update whose
payload start time is truthy with an earlier time-of-day than the target
(00:30 against the target's 01:00) produces a new-series task that starts
before the target, so the claimed partition by `startTime` fails. -/
theorem C3_counterexample :
    (updateTaskById 7 2 EditMode.following c3cpayload 0 c3wdb).1
      = OpResult.ok ∧
    (recurrenceChanged c3cpayload c3wseries || timeChanged c3cpayload c3wtask)
      = true ∧
    ∃ t ∈ (updateTaskById 7 2 EditMode.following c3cpayload 0 c3wdb).2.tasks,
      t.seriesId = some c3wdb.nextId ∧ t.startTime < c3wtask.startTime := by
  refine ⟨by decide, by decide, by decide⟩

/-- A task-list map that keeps every task's series and start time (or touches
only tasks outside every series) leaves all member-start lists unchanged. -/
theorem startsOf_map_preserve {g : TaskRec → TaskRec} :
    ∀ {l : List TaskRec},
      (∀ t ∈ l, (g t).seriesId = t.seriesId ∧
        ((g t).startTime = t.startTime ∨ t.seriesId = none)) →
      ∀ s : Nat, startsOf (l.map g) s = startsOf l s := by
  intro l
  induction l with
  | nil => intro _ s; rfl
  | cons t l ih =>
    intro h s
    have ht := h t (List.mem_cons_self t l)
    have ih' := ih (fun t' ht' => h t' (List.mem_cons_of_mem t ht')) s
    unfold startsOf at ih' ⊢
    rw [List.map_cons, List.filter_cons, List.filter_cons, ht.1]
    by_cases hs : (t.seriesId == some s) = true
    · rw [hs]
      simp only [if_pos]
      rw [List.map_cons, List.map_cons]
      have hst : (g t).startTime = t.startTime := by
        rcases ht.2 with h1 | h1
        · exact h1
        · rw [h1] at hs
          simp at hs
      rw [hst, ih']
    · have hs' : (t.seriesId == some s) = false := by simpa using hs
      rw [hs']
      simp only [Bool.false_eq_true, if_false]
      exact ih'

/-- A task-list map that never touches series membership or member start
times preserves the bound cache. -/
theorem boundsOk_map_tasks {db : DB} (hb : boundsOk db) {g : TaskRec → TaskRec}
    (hg : ∀ t ∈ db.tasks, (g t).seriesId = t.seriesId ∧
      ((g t).startTime = t.startTime ∨ t.seriesId = none)) :
    boundsOk { db with tasks := db.tasks.map g } := by
  intro sr hsr hne
  unfold memberStarts at hne ⊢
  dsimp only at hsr hne ⊢
  rw [startsOf_map_preserve hg sr.id] at hne ⊢
  exact hb sr hsr hne

/-- Bound-cache correctness of a freshly generated series (id `db.nextId`)
whose member starts are exactly `occurrences`, the other member sets being
unchanged: the generation writes `min`/`max` exactly when some occurrence
exists. -/
theorem fresh_series_boundsOk {u : Nat} {db : DB} (hwf : WF u db)
    (hb : boundsOk db) {occurrences : List Int} {X : List TaskRec}
    {ns : SeriesRec} {nid : Nat} (hns : ns.id = db.nextId)
    (hXold : ∀ sr ∈ db.series, startsOf X sr.id = startsOf db.tasks sr.id)
    (hXnew : startsOf X db.nextId = occurrences) :
    boundsOk (if occurrences.isEmpty then
        { tasks := X, series := db.series ++ [ns], nextId := nid }
      else updateSeries
        { tasks := X, series := db.series ++ [ns], nextId := nid }
        db.nextId (fun sr =>
          { sr with
            firstOccurrenceAt := some (minOfList occurrences)
            lastOccurrenceAt := some (maxOfList occurrences) })) := by
  split
  · rename_i hocc
    intro sr hsr hne
    unfold memberStarts at hne ⊢
    dsimp only at hsr hne ⊢
    rcases List.mem_append.mp hsr with hold | hnew
    · rw [hXold sr hold] at hne ⊢
      exact hb sr hold hne
    · simp only [List.mem_singleton] at hnew
      subst hnew
      exfalso
      apply hne
      rw [hns, hXnew]
      exact List.isEmpty_iff.mp hocc
  · intro sr hsr hne
    unfold updateSeries at hsr hne ⊢
    unfold memberStarts at hne ⊢
    dsimp only at hsr hne ⊢
    rcases List.mem_map.mp hsr with ⟨sr0, hsr0, rfl⟩
    rcases List.mem_append.mp hsr0 with hold | hnew
    · have hid2 : (sr0.id == db.nextId) = false := by
        have := hwf.series_lt sr0 hold
        simp
        omega
      rw [if_neg (by simp [hid2])] at hne ⊢
      rw [hXold sr0 hold] at hne ⊢
      exact hb sr0 hold hne
    · simp only [List.mem_singleton] at hnew
      subst hnew
      rw [if_pos (by rw [hns]; exact beq_self_eq_true db.nextId)] at hne ⊢
      dsimp only at hne ⊢
      rw [hns, hXnew] at hne ⊢
      exact ⟨rfl, rfl⟩

/-- Bound-cache correctness of an `all`-mode regeneration result: a fresh
series (id `db.nextId`) holding exactly `occurrences`, the old series `sid`
deleted together with its member tasks, every other member set unchanged. -/
theorem regen_delete_boundsOk {u : Nat} {db : DB} (hwf : WF u db)
    (hb : boundsOk db) {sid : Nat}
    {occurrences : List Int} {X : List TaskRec} {ns : SeriesRec} {nid : Nat}
    (hns : ns.id = db.nextId)
    (hXold : ∀ sr ∈ db.series, sr.id ≠ sid →
      startsOf X sr.id = startsOf db.tasks sr.id)
    (hXnew : startsOf X db.nextId = occurrences)
    (hXstable : ∀ s : Nat, s ≠ sid →
      startsOf (X.filter
        (fun t => ¬ (t.seriesId == some sid && t.userId == u))) s
        = startsOf X s) :
    boundsOk (deleteSeries
      { (if occurrences.isEmpty then
            { tasks := X, series := db.series ++ [ns], nextId := nid }
          else updateSeries
            { tasks := X, series := db.series ++ [ns], nextId := nid }
            db.nextId (fun sr =>
              { sr with
                firstOccurrenceAt := some (minOfList occurrences)
                lastOccurrenceAt := some (maxOfList occurrences) })) with
        tasks := (if occurrences.isEmpty then
            { tasks := X, series := db.series ++ [ns], nextId := nid }
          else updateSeries
            { tasks := X, series := db.series ++ [ns], nextId := nid }
            db.nextId (fun sr =>
              { sr with
                firstOccurrenceAt := some (minOfList occurrences)
                lastOccurrenceAt := some (maxOfList occurrences) })).tasks.filter
          (fun t => ¬ (t.seriesId == some sid && t.userId == u)) } sid) := by
  rw [tasks_ite]
  split
  · rename_i hocc
    intro sr hsr hne
    unfold deleteSeries at hsr
    unfold memberStarts deleteSeries at hne ⊢
    dsimp only at hsr hne ⊢
    have hsrmem := List.mem_of_mem_filter hsr
    have hsrne : sr.id ≠ sid := by
      have := List.of_mem_filter hsr
      simpa using this
    rw [hXstable sr.id hsrne] at hne ⊢
    rcases List.mem_append.mp hsrmem with hold | hnew
    · rw [hXold sr hold hsrne] at hne ⊢
      exact hb sr hold hne
    · simp only [List.mem_singleton] at hnew
      subst hnew
      exfalso
      apply hne
      rw [hns, hXnew]
      exact List.isEmpty_iff.mp hocc
  · intro sr hsr hne
    unfold deleteSeries updateSeries at hsr
    unfold memberStarts deleteSeries updateSeries at hne ⊢
    dsimp only at hsr hne ⊢
    have hsrmem := List.mem_of_mem_filter hsr
    have hsrne : sr.id ≠ sid := by
      have := List.of_mem_filter hsr
      simpa using this
    rw [hXstable sr.id hsrne] at hne ⊢
    rcases List.mem_map.mp hsrmem with ⟨sr0, hsr0, rfl⟩
    rcases List.mem_append.mp hsr0 with hold | hnew
    · have hid2 : (sr0.id == db.nextId) = false := by
        have := hwf.series_lt sr0 hold
        simp
        omega
      rw [if_neg (by simp [hid2])] at hne hsrne ⊢
      rw [hXold sr0 hold hsrne] at hne ⊢
      exact hb sr0 hold hne
    · simp only [List.mem_singleton] at hnew
      subst hnew
      rw [if_pos (by rw [hns]; exact beq_self_eq_true db.nextId)] at hne ⊢
      dsimp only at hne ⊢
      rw [hns, hXnew] at hne ⊢
      exact ⟨rfl, rfl⟩

/-- Bound-cache correctness of a `following`-mode split result: a fresh
series (id `db.nextId`) holding exactly `occurrences`, the old series `sid`
either deleted (no member left) or given freshly recomputed bounds over its
surviving members, every other member set unchanged; the final bulk field
application keeps series membership and start times. -/
theorem follow_split_boundsOk {u : Nat} {db : DB} (hwf : WF u db)
    (hb : boundsOk db) {sid : Nat}
    {occurrences : List Int} {X : List TaskRec} {ns : SeriesRec}
    {nid : Nat} {p : Payload} {c : TaskRec → Bool}
    (hns : ns.id = db.nextId)
    (hXold : ∀ sr ∈ db.series, sr.id ≠ sid →
      startsOf X sr.id = startsOf db.tasks sr.id)
    (hXnew : startsOf X db.nextId = occurrences)
    (hXsidM : (X.filter (fun t => t.seriesId == some sid && t.userId == u)).map
        (fun t => t.startTime) = startsOf X sid) :
    boundsOk { (if ((if occurrences.isEmpty then { tasks := X, series := db.series ++ [ns], nextId := nid } else updateSeries { tasks := X, series := db.series ++ [ns], nextId := nid } db.nextId (fun sr => { sr with firstOccurrenceAt := some (minOfList occurrences), lastOccurrenceAt := some (maxOfList occurrences) })).tasks.filter (fun t => t.seriesId == some sid && t.userId == u)).isEmpty then deleteSeries (if occurrences.isEmpty then { tasks := X, series := db.series ++ [ns], nextId := nid } else updateSeries { tasks := X, series := db.series ++ [ns], nextId := nid } db.nextId (fun sr => { sr with firstOccurrenceAt := some (minOfList occurrences), lastOccurrenceAt := some (maxOfList occurrences) })) sid else updateSeries (if occurrences.isEmpty then { tasks := X, series := db.series ++ [ns], nextId := nid } else updateSeries { tasks := X, series := db.series ++ [ns], nextId := nid } db.nextId (fun sr => { sr with firstOccurrenceAt := some (minOfList occurrences), lastOccurrenceAt := some (maxOfList occurrences) })) sid (fun sr => { sr with firstOccurrenceAt := some (minOfList (((if occurrences.isEmpty then { tasks := X, series := db.series ++ [ns], nextId := nid } else updateSeries { tasks := X, series := db.series ++ [ns], nextId := nid } db.nextId (fun sr => { sr with firstOccurrenceAt := some (minOfList occurrences), lastOccurrenceAt := some (maxOfList occurrences) })).tasks.filter (fun t => t.seriesId == some sid && t.userId == u)).map (fun t => t.startTime))), lastOccurrenceAt := some (maxOfList (((if occurrences.isEmpty then { tasks := X, series := db.series ++ [ns], nextId := nid } else updateSeries { tasks := X, series := db.series ++ [ns], nextId := nid } db.nextId (fun sr => { sr with firstOccurrenceAt := some (minOfList occurrences), lastOccurrenceAt := some (maxOfList occurrences) })).tasks.filter (fun t => t.seriesId == some sid && t.userId == u)).map (fun t => t.startTime))) })) with tasks := (if ((if occurrences.isEmpty then { tasks := X, series := db.series ++ [ns], nextId := nid } else updateSeries { tasks := X, series := db.series ++ [ns], nextId := nid } db.nextId (fun sr => { sr with firstOccurrenceAt := some (minOfList occurrences), lastOccurrenceAt := some (maxOfList occurrences) })).tasks.filter (fun t => t.seriesId == some sid && t.userId == u)).isEmpty then deleteSeries (if occurrences.isEmpty then { tasks := X, series := db.series ++ [ns], nextId := nid } else updateSeries { tasks := X, series := db.series ++ [ns], nextId := nid } db.nextId (fun sr => { sr with firstOccurrenceAt := some (minOfList occurrences), lastOccurrenceAt := some (maxOfList occurrences) })) sid else updateSeries (if occurrences.isEmpty then { tasks := X, series := db.series ++ [ns], nextId := nid } else updateSeries { tasks := X, series := db.series ++ [ns], nextId := nid } db.nextId (fun sr => { sr with firstOccurrenceAt := some (minOfList occurrences), lastOccurrenceAt := some (maxOfList occurrences) })) sid (fun sr => { sr with firstOccurrenceAt := some (minOfList (((if occurrences.isEmpty then { tasks := X, series := db.series ++ [ns], nextId := nid } else updateSeries { tasks := X, series := db.series ++ [ns], nextId := nid } db.nextId (fun sr => { sr with firstOccurrenceAt := some (minOfList occurrences), lastOccurrenceAt := some (maxOfList occurrences) })).tasks.filter (fun t => t.seriesId == some sid && t.userId == u)).map (fun t => t.startTime))), lastOccurrenceAt := some (maxOfList (((if occurrences.isEmpty then { tasks := X, series := db.series ++ [ns], nextId := nid } else updateSeries { tasks := X, series := db.series ++ [ns], nextId := nid } db.nextId (fun sr => { sr with firstOccurrenceAt := some (minOfList occurrences), lastOccurrenceAt := some (maxOfList occurrences) })).tasks.filter (fun t => t.seriesId == some sid && t.userId == u)).map (fun t => t.startTime))) })).tasks.map (fun t => if c t then applyPayload t (stripScheduling p) else t) } := by
  rw [tasks_ite_del, tasks_ite]
  intro sr hsr hne
  unfold memberStarts at hne ⊢
  dsimp only at hsr hne ⊢
  rw [startsOf_map_preserve ?hg1 sr.id] at hne
  case hg1 =>
    intro t ht
    exact ⟨by split <;> rfl, Or.inl (by split <;> rfl)⟩
  rw [startsOf_map_preserve ?hg2 sr.id]
  case hg2 =>
    intro t ht
    exact ⟨by split <;> rfl, Or.inl (by split <;> rfl)⟩
  by_cases hocc : occurrences.isEmpty = true
  · rw [if_pos hocc] at hsr
    split at hsr
    · -- no member survives: the old series is deleted
      unfold deleteSeries at hsr
      dsimp only at hsr
      have hsrmem := List.mem_of_mem_filter hsr
      have hsrne : sr.id ≠ sid := by
        have := List.of_mem_filter hsr
        simpa using this
      rcases List.mem_append.mp hsrmem with hold | hnew
      · rw [hXold sr hold hsrne] at hne ⊢
        exact hb sr hold hne
      · simp only [List.mem_singleton] at hnew
        subst hnew
        exfalso
        apply hne
        rw [hns, hXnew]
        exact List.isEmpty_iff.mp hocc
    · -- members survive: both bounds of the old series are recomputed
      unfold updateSeries at hsr
      dsimp only at hsr
      rcases List.mem_map.mp hsr with ⟨sr1, hsr1, rfl⟩
      by_cases hcase : (sr1.id == sid) = true
      · rw [if_pos hcase] at hne ⊢
        dsimp only at hne ⊢
        have hceq : sr1.id = sid := by simpa using hcase
        rw [hceq] at hne ⊢
        rw [hXsidM]
        exact ⟨rfl, rfl⟩
      · rw [if_neg hcase] at hne ⊢
        have hsrne : sr1.id ≠ sid := by simpa using hcase
        rcases List.mem_append.mp hsr1 with hold | hnew
        · rw [hXold sr1 hold hsrne] at hne ⊢
          exact hb sr1 hold hne
        · simp only [List.mem_singleton] at hnew
          subst hnew
          exfalso
          apply hne
          rw [hns, hXnew]
          exact List.isEmpty_iff.mp hocc
  · rw [if_neg hocc] at hsr
    split at hsr
    · -- no member survives: the old series is deleted
      unfold deleteSeries updateSeries at hsr
      dsimp only at hsr
      have hsrmem := List.mem_of_mem_filter hsr
      have hsrne : sr.id ≠ sid := by
        have := List.of_mem_filter hsr
        simpa using this
      rcases List.mem_map.mp hsrmem with ⟨sr0, hsr0, rfl⟩
      rcases List.mem_append.mp hsr0 with hold | hnew
      · have hid2 : (sr0.id == db.nextId) = false := by
          have := hwf.series_lt sr0 hold
          simp
          omega
        rw [if_neg (by simp [hid2])] at hne hsrne ⊢
        rw [hXold sr0 hold hsrne] at hne ⊢
        exact hb sr0 hold hne
      · simp only [List.mem_singleton] at hnew
        subst hnew
        rw [if_pos (by rw [hns]; exact beq_self_eq_true db.nextId)] at hne ⊢
        dsimp only at hne ⊢
        rw [hns, hXnew] at hne ⊢
        exact ⟨rfl, rfl⟩
    · -- members survive: both bounds of the old series are recomputed
      unfold updateSeries at hsr
      dsimp only at hsr
      rcases List.mem_map.mp hsr with ⟨sr1, hsr1, rfl⟩
      by_cases hcase : (sr1.id == sid) = true
      · rw [if_pos hcase] at hne ⊢
        dsimp only at hne ⊢
        have hceq : sr1.id = sid := by simpa using hcase
        rw [hceq] at hne ⊢
        rw [hXsidM]
        exact ⟨rfl, rfl⟩
      · rw [if_neg hcase] at hne ⊢
        have hsrne : sr1.id ≠ sid := by simpa using hcase
        rcases List.mem_map.mp hsr1 with ⟨sr0, hsr0, rfl⟩
        rcases List.mem_append.mp hsr0 with hold | hnew
        · have hid2 : (sr0.id == db.nextId) = false := by
            have := hwf.series_lt sr0 hold
            simp
            omega
          rw [if_neg (by simp [hid2])] at hne hsrne ⊢
          rw [hXold sr0 hold hsrne] at hne ⊢
          exact hb sr0 hold hne
        · simp only [List.mem_singleton] at hnew
          subst hnew
          rw [if_pos (by rw [hns]; exact beq_self_eq_true db.nextId)] at hne hsrne ⊢
          dsimp only at hne ⊢
          rw [hns, hXnew] at hne ⊢
          exact ⟨rfl, rfl⟩

/-- An `all`-mode update preserves the bound cache: a plain target update
touches no member, a promotion or regeneration writes fresh exact bounds and
removes the old series, and the bulk field update keeps start times. -/
theorem updateTaskById_all_boundsOk {u i : Nat} {p : Payload} {off : Int}
    {db : DB} (hwf : WF u db) (hb : boundsOk db) :
    boundsOk (updateTaskById u i .all p off db).2 := by
  unfold updateTaskById
  rcases hfind : findTask db u i with _ | task
  · exact hb
  · dsimp only
    rcases hsid0 : task.seriesId with _ | sid
    · dsimp only
      rcases hrec : p.recurrence with _ | recurrence
      · dsimp only
        exact boundsOk_map_tasks hb (by
          intro t ht
          refine ⟨by split <;> rfl, ?_⟩
          by_cases hid : t.id = task.id
          · right
            have hteq := task_eq_of_id hwf ht (findTask_mem hfind).1 hid
            rw [hteq]
            exact hsid0
          · left
            rw [if_neg (by simpa using hid)])
      · dsimp only
        rcases hg : generateOccurrences off (p.startTime.getD task.startTime)
            recurrence with e | occurrences
        · dsimp only
          intro sr hsr hne
          unfold memberStarts at hne ⊢
          dsimp only at hsr hne ⊢
          rcases List.mem_append.mp hsr with hold | hnew
          · exact hb sr hold hne
          · simp only [List.mem_singleton] at hnew
            subst hnew
            exfalso
            apply hne
            refine startsOf_eq_nil ?_
            intro t ht hcontra
            have := hwf.task_lt t ht db.nextId hcontra
            omega
        · dsimp only
          rw [apply_ite Prod.snd]
          dsimp only
          refine fresh_series_boundsOk hwf hb rfl ?_ ?_
          · intro sr hsr
            rw [startsOf_append,
              startsOf_createTasksFromSeries_other db.nextId sr.id _
                (by have := hwf.series_lt sr hsr; omega) occurrences _]
            rw [startsOf_filter_stable ?hfs]
            case hfs =>
              intro t ht hts
              have hidne : t.id ≠ task.id := by
                intro hcontra
                have hteq := task_eq_of_id hwf ht (findTask_mem hfind).1 hcontra
                rw [hteq, hsid0] at hts
                exact Option.noConfusion hts
              simpa using hidne
            simp
          · rw [startsOf_append, startsOf_createTasksFromSeries]
            rw [startsOf_filter_stable ?hfs2]
            case hfs2 =>
              intro t ht hts
              have hidne : t.id ≠ task.id := by
                intro hcontra
                have hteq := task_eq_of_id hwf ht (findTask_mem hfind).1 hcontra
                rw [hteq, hsid0] at hts
                exact Option.noConfusion hts
              simpa using hidne
            rw [startsOf_eq_nil (by
              intro t ht hcontra
              have := hwf.task_lt t ht db.nextId hcontra
              omega)]
            simp
    · dsimp only
      rcases hser : findSeries db sid with _ | series
      · exact hb
      · dsimp only
        have hm2 := findSeries_mem hser
        have hsidlt : sid < db.nextId := by
          have := hwf.series_lt series hm2.1
          omega
        by_cases hchg : (recurrenceChanged p series || timeChanged p task) = true
        · rw [if_pos hchg]
          rcases hg : generateOccurrences off
              (alignedStart off (p.recurrence.getD series.recurrence) p
                (firstStartOf db u sid series task))
              (p.recurrence.getD series.recurrence) with e | occurrences
          · dsimp only
            intro sr hsr hne
            unfold memberStarts at hne ⊢
            dsimp only at hsr hne ⊢
            rcases List.mem_append.mp hsr with hold | hnew
            · exact hb sr hold hne
            · simp only [List.mem_singleton] at hnew
              subst hnew
              exfalso
              apply hne
              refine startsOf_eq_nil ?_
              intro t ht hcontra
              have := hwf.task_lt t ht db.nextId hcontra
              omega
          · dsimp only
            refine regen_delete_boundsOk hwf hb rfl ?_ ?_ ?_
            · intro sr hsr hsrne
              rw [startsOf_append,
                startsOf_createTasksFromSeries_other db.nextId sr.id _
                  (by have := hwf.series_lt sr hsr; omega) occurrences _]
              simp
            · rw [startsOf_append, startsOf_createTasksFromSeries]
              rw [startsOf_eq_nil (by
                intro t ht hcontra
                have := hwf.task_lt t ht db.nextId hcontra
                omega)]
              simp
            · intro s hs
              refine startsOf_filter_stable ?_
              intro t ht hts
              simp [hts, hs]
        · rw [if_neg hchg]
          exact boundsOk_map_tasks hb (by
            intro t ht
            exact ⟨by split <;> rfl, Or.inl (by split <;> rfl)⟩)

/-- A `following`-mode update preserves the bound cache: the split recomputes
both bounds of whichever series survive, and all other branches leave member
sets unchanged (see `updateTaskById_all_boundsOk` for the shared cases). -/
theorem updateTaskById_following_boundsOk {u i : Nat} {p : Payload}
    {off : Int} {db : DB} (hwf : WF u db) (hb : boundsOk db) :
    boundsOk (updateTaskById u i .following p off db).2 := by
  unfold updateTaskById
  rcases hfind : findTask db u i with _ | task
  · exact hb
  · dsimp only
    rcases hsid0 : task.seriesId with _ | sid
    · dsimp only
      rcases hrec : p.recurrence with _ | recurrence
      · dsimp only
        exact boundsOk_map_tasks hb (by
          intro t ht
          refine ⟨by split <;> rfl, ?_⟩
          by_cases hid : t.id = task.id
          · right
            have hteq := task_eq_of_id hwf ht (findTask_mem hfind).1 hid
            rw [hteq]
            exact hsid0
          · left
            rw [if_neg (by simpa using hid)])
      · dsimp only
        rcases hg : generateOccurrences off (p.startTime.getD task.startTime)
            recurrence with e | occurrences
        · dsimp only
          intro sr hsr hne
          unfold memberStarts at hne ⊢
          dsimp only at hsr hne ⊢
          rcases List.mem_append.mp hsr with hold | hnew
          · exact hb sr hold hne
          · simp only [List.mem_singleton] at hnew
            subst hnew
            exfalso
            apply hne
            refine startsOf_eq_nil ?_
            intro t ht hcontra
            have := hwf.task_lt t ht db.nextId hcontra
            omega
        · dsimp only
          rw [apply_ite Prod.snd]
          dsimp only
          refine fresh_series_boundsOk hwf hb rfl ?_ ?_
          · intro sr hsr
            rw [startsOf_append,
              startsOf_createTasksFromSeries_other db.nextId sr.id _
                (by have := hwf.series_lt sr hsr; omega) occurrences _]
            rw [startsOf_filter_stable ?hfs]
            case hfs =>
              intro t ht hts
              have hidne : t.id ≠ task.id := by
                intro hcontra
                have hteq := task_eq_of_id hwf ht (findTask_mem hfind).1 hcontra
                rw [hteq, hsid0] at hts
                exact Option.noConfusion hts
              simpa using hidne
            simp
          · rw [startsOf_append, startsOf_createTasksFromSeries]
            rw [startsOf_filter_stable ?hfs2]
            case hfs2 =>
              intro t ht hts
              have hidne : t.id ≠ task.id := by
                intro hcontra
                have hteq := task_eq_of_id hwf ht (findTask_mem hfind).1 hcontra
                rw [hteq, hsid0] at hts
                exact Option.noConfusion hts
              simpa using hidne
            rw [startsOf_eq_nil (by
              intro t ht hcontra
              have := hwf.task_lt t ht db.nextId hcontra
              omega)]
            simp
    · dsimp only
      rcases hser : findSeries db sid with _ | series
      · exact hb
      · dsimp only
        have hm2 := findSeries_mem hser
        have hsidlt : sid < db.nextId := by
          have := hwf.series_lt series hm2.1
          omega
        by_cases hchg : (recurrenceChanged p series || timeChanged p task) = true
        · rw [if_pos hchg]
          rcases hg : generateOccurrences off
              (alignedStart off (p.recurrence.getD series.recurrence) p
                task.startTime)
              (p.recurrence.getD series.recurrence) with e | occurrences
          · dsimp only
            intro sr hsr hne
            unfold memberStarts at hne ⊢
            dsimp only at hsr hne ⊢
            rcases List.mem_append.mp hsr with hold | hnew
            · exact hb sr hold hne
            · simp only [List.mem_singleton] at hnew
              subst hnew
              exfalso
              apply hne
              refine startsOf_eq_nil ?_
              intro t ht hcontra
              have := hwf.task_lt t ht db.nextId hcontra
              omega
          · dsimp only
            refine follow_split_boundsOk hwf hb rfl ?_ ?_ ?_
            · intro sr hsr hsrne
              rw [startsOf_append,
                startsOf_createTasksFromSeries_other db.nextId sr.id _
                  (by have := hwf.series_lt sr hsr; omega) occurrences _]
              rw [startsOf_filter_stable ?hfq]
              case hfq =>
                intro t ht hts
                simp [hts, hsrne]
              simp
            · rw [startsOf_append, startsOf_createTasksFromSeries]
              rw [startsOf_filter_stable ?hfq2]
              case hfq2 =>
                intro t ht hts
                have := hwf.task_lt t ht db.nextId hts
                omega
              rw [startsOf_eq_nil (by
                intro t ht hcontra
                have := hwf.task_lt t ht db.nextId hcontra
                omega)]
              simp
            · unfold startsOf
              refine congrArg _ ?_
              refine List.filter_congr ?_
              intro t ht
              rcases List.mem_append.mp ht with h1 | h1
              · by_cases hts : t.seriesId = some sid
                · have huser : t.userId = u :=
                    hwf.member_user t (List.mem_of_mem_filter h1)
                      (by rw [hts]; simp)
                  simp [hts, huser]
                · have hf : (t.seriesId == some sid) = false := by simp [hts]
                  rw [hf]
                  simp
              · have hmem := createTasksFromSeries_mem db.nextId _ occurrences
                  _ t h1
                have hf : (t.seriesId == some sid) = false := by
                  rw [hmem.1]
                  simp
                  omega
                rw [hf]
                simp
        · rw [if_neg hchg]
          exact boundsOk_map_tasks hb (by
            intro t ht
            exact ⟨by split <;> rfl, Or.inl (by split <;> rfl)⟩)

/-- C2: after a create, an `all`-mode or `following`-mode delete, or an
`all`-mode or `following`-mode update, every surviving series caches the
minimum member start time in `firstOccurrenceAt` and the maximum in
`lastOccurrenceAt` (corrected: the original claim also covered `single`-mode
operations, but a `single`-mode delete removes a member task without touching
the cached bounds — see the counterexample). -/
theorem C2_bounds_invariant {u : Nat} {off : Int} {db : DB}
    (hwf : WF u db) (hb : boundsOk db) :
    (∀ p, boundsOk (createTask u p off db).2) ∧
    (∀ i, boundsOk (deleteTaskById u i .all db).2) ∧
    (∀ i, boundsOk (deleteTaskById u i .following db).2) ∧
    (∀ i p, boundsOk (updateTaskById u i .all p off db).2) ∧
    (∀ i p, boundsOk (updateTaskById u i .following p off db).2) :=
  ⟨fun p => createTask_boundsOk hwf hb p,
   fun _ => deleteTaskById_all_boundsOk hwf hb,
   fun _ => deleteTaskById_following_boundsOk hwf hb,
   fun _ _ => updateTaskById_all_boundsOk hwf hb,
   fun _ _ => updateTaskById_following_boundsOk hwf hb⟩

/-- Witness for C2 at a concrete two-member series, on a rule-changing
`following` split at the second member. -/
theorem C2_witness :
    boundsOk (updateTaskById 7 2 EditMode.following
      { recurrence := some { frequency := Frequency.daily
                             count := some 1
                             timezone := some "UTC" } } 0 c2db).2 := by
  have h : (∀ p, boundsOk (createTask 7 p 0 c2db).2) ∧
      (∀ i, boundsOk (deleteTaskById 7 i .all c2db).2) ∧
      (∀ i, boundsOk (deleteTaskById 7 i .following c2db).2) ∧
      (∀ i p, boundsOk (updateTaskById 7 i .all p 0 c2db).2) ∧
      (∀ i p, boundsOk (updateTaskById 7 i .following p 0 c2db).2) :=
    C2_bounds_invariant
      ⟨by decide,
       by
        intro t ht sid hsid
        simp only [c2db, List.mem_cons, List.not_mem_nil, or_false] at ht
        rcases ht with rfl | rfl
        · simp at hsid
          simp only [c2db]
          omega
        · simp at hsid
          simp only [c2db]
          omega,
       by decide,
       by decide⟩
      (by decide)
  exact h.2.2.2.2 2 { recurrence := some { frequency := Frequency.daily
                                           count := some 1
                                           timezone := some "UTC" } }
